import Mathlib

/-!
SELECT-statement binder of miniob, `src/observer/sql/stmt/select_stmt.cpp`.

A shallow embedding of `wildcard_fields` and `SelectStmt::create`, followed by
theorems about what the binder returns and which collaborators it calls.

Conventions of the embedding.
* Pointers are modelled by the values they point to; a nullable pointer is an
  `Option`.  The projection list holds node pointers, so an entry that is a raw
  node is that raw node itself; what `check_field` writes behind such a
  pointer is not part of the model.
* Relation names are NUL-free text, so `std::string::c_str()` followed by the
  construction of a `std::string` is the identity and `0 == strcmp(a, b)` is
  `a = b`.  Counts (`sys_field_num()`, `field_num()`, `size()`) are natural
  numbers well below the range of `int`.
* Collaborators whose code lives in other files (`Db::find_table`,
  `Expression::check_field`, `FilterStmt::create`, `common::is_blank`) are
  parameters.
* Every call to a collaborator is recorded, in order, in a ghost call log that
  the functions thread through; it has no influence on the results.
-/

namespace SelectStmt

/-! ## Data model -/

/-- Return codes of `rc.h` that the binder itself produces, and `OTHER` for
every further enumerator a collaborator may hand back. -/
inductive RC where
  | SUCCESS
  | INVALID_ARGUMENT
  | SCHEMA_TABLE_NOT_EXIST
  | SCHEMA_FIELD_MISSING
  | OTHER (code : Nat)
deriving DecidableEq

/-- Field metadata as far as the binder reads it: `name()` and `visible()`. -/
structure FieldMeta where
  name : String
  visible : Bool
deriving DecidableEq

/-- Table metadata: `sys_field_num()` and the ordered field list behind
`field_num()` and `field(i)`. -/
structure TableMeta where
  sys_field_num : Nat
  fields : List FieldMeta
deriving DecidableEq

/-- Number of fields, `TableMeta::field_num()`. -/
def TableMeta.field_num (m : TableMeta) : Nat := m.fields.length

/-- The `i`-th field, `TableMeta::field(i)`. -/
def TableMeta.field (m : TableMeta) (i : Nat) : Option FieldMeta := m.fields[i]?

/-- Table handle: `name()` and `table_meta()`. -/
structure Table where
  name : String
  table_meta : TableMeta
deriving DecidableEq

/-- Catalog: `Db::find_table`, with `none` for the null pointer. -/
structure Db where
  find_table : String → Option Table

/-- Field-reference node.  `table_name` and `field_name` are what
`get_table_name()` and `get_field_name()` return, `name` is the display name
written by `set_name`, and `table`, `field` are the catalog objects a node
built by `FieldExpr(table, field)` refers to (`none` on a parsed node). -/
structure FieldExpr where
  table_name : String
  field_name : String
  name : String
  table : Option Table
  field : Option FieldMeta
deriving DecidableEq

/-- Modelled from the spec: the kinds of expression node (`ExprType` of
expression.h, which is not among the sources), `kind() -> {Field, Star, Other}`. -/
inductive ExprType where
  | FIELD
  | STAR
  | OTHER
deriving DecidableEq

/-- Expression node.  The binder looks inside a node only when its type is
`ExprType::FIELD`; nodes of the other kinds are told apart by a tag. -/
inductive Expression where
  | field (fe : FieldExpr)
  | star (tag : Nat)
  | other (tag : Nat)
deriving DecidableEq

/-- The type tag of a node, `Expression::type()`. -/
def Expression.type : Expression → ExprType
  | .field _ => .FIELD
  | .star _ => .STAR
  | .other _ => .OTHER

/-- Modelled from the spec: the constructor `FieldExpr(table, field)` of
expression.h (not among the sources), a concrete field reference whose table
and field names are those of the catalog objects it is built from. -/
def FieldExpr.ofField (table : Table) (field : FieldMeta) : FieldExpr :=
  { table_name := table.name, field_name := field.name, name := "",
    table := some table, field := some field }

/-- The display name is replaced, `Expression::set_name`. -/
def FieldExpr.set_name (fe : FieldExpr) (n : String) : FieldExpr := { fe with name := n }

/-- Raw condition fragment of the parser; the binder only passes it on. -/
structure ConditionSqlNode where
  tag : Nat
deriving DecidableEq

/-- Resolved predicate, the product of `FilterStmt::create`. -/
structure FilterStmt where
  tag : Nat
deriving DecidableEq

/-- One FROM entry: a base relation, the relations joined to it and one
condition-fragment list per joined relation. -/
structure InnerJoinSqlNode where
  base_relation : String
  join_relations : List String
  conditions : List (List ConditionSqlNode)
deriving DecidableEq

/-- The parsed SELECT node, as far as `create` reads it. -/
structure SelectSqlNode where
  project_exprs : List Expression
  relations : List InnerJoinSqlNode
  conditions : List ConditionSqlNode
deriving DecidableEq

/-- The name to table map, `std::unordered_map<std::string, Table *>`; only
`insert`, `find` and `operator[]` are used, never its iteration order. -/
abbrev TableMap := List (String × Table)

/-- Lookup, `table_map.find(name)`; also `table_map[name]` for a key that is
present (`none` is the null pointer of an absent key). -/
def TableMap.find (m : TableMap) (name : String) : Option Table :=
  (List.find? (fun p => p.1 == name) m).map Prod.snd

/-- Insertion, `std::unordered_map::insert`: a key already present keeps its
binding. -/
def TableMap.insert (m : TableMap) (name : String) (t : Table) : TableMap :=
  match TableMap.find m name with
  | some _ => m
  | none => m ++ [(name, t)]

/-- Modelled from the spec: class `JoinTables` of select_stmt.h (not among the
sources), a join chain made of a base table and an ordered sequence of join
steps `(joined table, resolved predicate)`. -/
structure JoinTables where
  base : Option Table
  steps : List (Option Table × FilterStmt)
deriving DecidableEq

/-- A join step is appended, `JoinTables::push_join_table`. -/
def JoinTables.push_join_table (jt : JoinTables) (t : Option Table) (f : FilterStmt) :
    JoinTables :=
  { jt with steps := jt.steps ++ [(t, f)] }

/-- The bound statement: `join_tables_`, `projects_` and `filter_stmt_`. -/
structure Stmt where
  join_tables_ : List JoinTables
  projects_ : List Expression
  filter_stmt_ : Option FilterStmt
deriving DecidableEq

/-- Collaborators of the binder that live in other files. -/
structure Collab where
  /-- The schema check of a node, `Expression::check_field(table_map, tables, db)`. -/
  check_field : Expression → TableMap → List Table → Db → RC
  /-- The predicate builder, `FilterStmt::create(db, default_table, &table_map,
  conditions, n, stmt)`: the code returned and the pointer left in `stmt`. -/
  filter_create : Db → Option Table → TableMap → List ConditionSqlNode → RC × Option FilterStmt
  /-- The blank test of a C string, `common::is_blank`. -/
  is_blank : String → Bool

/-- One entry of the ghost call log. -/
inductive Call where
  | find_table (name : String)
  | filter_create (default_table : Option Table) (table_map : TableMap)
      (conditions : List ConditionSqlNode)
  | check_field (expr : Expression)
  | wildcard_fields (table : Table)
deriving DecidableEq

/-- Modelled from the spec: how a call of `create` ends.  Either it returns a
code, or an `ASSERT` (macro of common/log/log.h, not among the sources) fails,
which is a defect-signalling abort distinct from every returned code. -/
inductive Exit where
  | returned (rc : RC)
  | aborted (msg : String)
deriving DecidableEq

/-! ## `wildcard_fields` -/

/-- Body of the loop of `wildcard_fields` at index `i`. -/
def wildcard_fields_body (table : Table) (is_single_table : Bool)
    (projects : List Expression) (i : Nat) : List Expression :=
  match table.table_meta.field i with
  | none => projects
  | some field =>
    if field.visible then
      let tmp := FieldExpr.ofField table field
      let tmp :=
        if is_single_table then tmp.set_name tmp.field_name
        else tmp.set_name (tmp.table_name ++ "." ++ tmp.field_name)
      projects ++ [Expression.field tmp]
    else projects

/-- The function `wildcard_fields`: for `i` from `sys_field_num()` up to
`field_num()`, a field reference is appended for each visible field. -/
def wildcard_fields (table : Table) (projects : List Expression) (is_single_table : Bool) :
    List Expression :=
  (List.range' table.table_meta.sys_field_num
      (table.table_meta.field_num - table.table_meta.sys_field_num)).foldl
    (wildcard_fields_body table is_single_table) projects

/-! ## `SelectStmt::create` -/

/-- The locals `tables` and `table_map` of `create`, with the ghost call log. -/
structure Locals where
  tables : List Table
  table_map : TableMap
  calls : List Call
deriving DecidableEq

/-- The lambda `check_and_collect_tables`; `table_name` is a C string pointer. -/
def check_and_collect_tables (db : Db) (table_name : Option String) (st : Locals) :
    RC × Locals :=
  match table_name with
  | none => (RC.INVALID_ARGUMENT, st)
  | some n =>
    let st := { st with calls := st.calls ++ [Call.find_table n] }
    match db.find_table n with
    | none => (RC.SCHEMA_TABLE_NOT_EXIST, st)
    | some table =>
      (RC.SUCCESS,
        { st with tables := st.tables ++ [table],
                  table_map := TableMap.insert st.table_map n table })

/-- Result of a run of loop iterations: either the loop went through and left
a value, or an iteration left `create`. -/
inductive Run (α : Type) where
  | done (a : α) (st : Locals)
  | left (e : Exit) (st : Locals)
deriving DecidableEq

/-- The inner loop over `j` in `create`: the joined relations of one FROM
entry, each paired with its condition fragments `conditions[j]`. -/
def join_loop (env : Collab) (db : Db) (base_relation : String) :
    List (String × List ConditionSqlNode) → JoinTables → Locals → Run JoinTables
  | [], jt, st => Run.done jt st
  | (join_relation, conds) :: rest, jt, st =>
    match check_and_collect_tables db (some join_relation) st with
    | (RC.SUCCESS, st) =>
      let default_table := TableMap.find st.table_map base_relation
      let r := env.filter_create db default_table st.table_map conds
      let st := { st with calls := st.calls ++
        [Call.filter_create default_table st.table_map conds] }
      if r.1 ≠ RC.SUCCESS then Run.left (Exit.returned r.1) st
      else
        match r.2 with
        | none => Run.left (Exit.aborted "FilterStmt is null!") st
        | some filter_stmt =>
          join_loop env db base_relation rest
            (jt.push_join_table (TableMap.find st.table_map join_relation) filter_stmt) st
    | (rc, st) => Run.left (Exit.returned rc) st

/-- The outer loop over `i` in `create`: the FROM entries in order. -/
def from_loop (env : Collab) (db : Db) :
    List InnerJoinSqlNode → List JoinTables → Locals → Run (List JoinTables)
  | [], join_tables, st => Run.done join_tables st
  | relations :: rest, join_tables, st =>
    match check_and_collect_tables db (some relations.base_relation) st with
    | (RC.SUCCESS, st) =>
      let jt : JoinTables := { base := TableMap.find st.table_map relations.base_relation,
                               steps := [] }
      if relations.join_relations.length ≠ relations.conditions.length then
        Run.left (Exit.aborted "Select InnerJoin size error!") st
      else
        match join_loop env db relations.base_relation
            (relations.join_relations.zip relations.conditions) jt st with
        | Run.done jt st => from_loop env db rest (join_tables ++ [jt]) st
        | Run.left e st => Run.left e st
    | (rc, st) => Run.left (Exit.returned rc) st

/-- Result of a run of the projection loop: the list built, or the exit taken. -/
inductive ProjRun where
  | done (projects : List Expression) (calls : List Call)
  | left (e : Exit) (calls : List Call)
deriving DecidableEq

/-- The branch shared by `t1.c1`, `c1` and every node that is not a field
reference: `check_field`, then the node itself is appended. -/
def check_and_keep (env : Collab) (db : Db) (tables : List Table) (table_map : TableMap)
    (expr : Expression) (projects : List Expression) (calls : List Call) : ProjRun :=
  let rc := env.check_field expr table_map tables db
  let calls := calls ++ [Call.check_field expr]
  if rc ≠ RC.SUCCESS then ProjRun.left (Exit.returned rc) calls
  else ProjRun.done (projects ++ [expr]) calls

/-- Body of the projection loop of `create` for one raw expression. -/
def project_body (env : Collab) (db : Db) (tables : List Table) (table_map : TableMap)
    (is_single_table : Bool) (expr : Expression) (projects : List Expression)
    (calls : List Call) : ProjRun :=
  match expr with
  | Expression.field field_expr =>
    let table_name := field_expr.table_name
    let field_name := field_expr.field_name
    if env.is_blank field_name then ProjRun.left (Exit.aborted "Parse ERROR!") calls
    else if table_name = "*" ∧ field_name = "*" then
      ProjRun.done
        (tables.foldl (fun ps table => wildcard_fields table ps is_single_table) projects)
        (calls ++ tables.map Call.wildcard_fields)
    else if field_name = "*" then
      if table_name = "*" then ProjRun.left (Exit.aborted "Parse ERROR!") calls
      else
        match TableMap.find table_map table_name with
        | none => ProjRun.left (Exit.returned RC.SCHEMA_FIELD_MISSING) calls
        | some table =>
          ProjRun.done (wildcard_fields table projects is_single_table)
            (calls ++ [Call.wildcard_fields table])
    else check_and_keep env db tables table_map expr projects calls
  | _ => check_and_keep env db tables table_map expr projects calls

/-- The projection loop of `create`, given the raw expressions in the order in
which the loop visits them. -/
def project_loop (env : Collab) (db : Db) (tables : List Table) (table_map : TableMap)
    (is_single_table : Bool) : List Expression → List Expression → List Call → ProjRun
  | [], projects, calls => ProjRun.done projects calls
  | expr :: rest, projects, calls =>
    match project_body env db tables table_map is_single_table expr projects calls with
    | ProjRun.done projects calls =>
      project_loop env db tables table_map is_single_table rest projects calls
    | ProjRun.left e calls => ProjRun.left e calls

/-- What a call of `create` leaves behind: how it ended, the value of the
output reference `stmt`, the raw node, and the ghost call log. -/
structure Created where
  exit : Exit
  stmt : Option Stmt
  select_sql : SelectSqlNode
  calls : List Call
deriving DecidableEq

/-- The function `SelectStmt::create(db, select_sql, stmt)`; `stmt` is the
value of the output reference on entry.  The projection loop runs `i` from
`project_exprs.size() - 1` down to `0`, that is over the reversed list. -/
def create (env : Collab) (db : Option Db) (select_sql : SelectSqlNode) (stmt : Option Stmt) :
    Created :=
  match db with
  | none => ⟨Exit.returned RC.INVALID_ARGUMENT, stmt, select_sql, []⟩
  | some db =>
    match from_loop env db select_sql.relations [] ⟨[], [], []⟩ with
    | Run.left e st => ⟨e, stmt, select_sql, st.calls⟩
    | Run.done join_tables st =>
      let is_single_table : Bool := st.tables.length == 1
      match project_loop env db st.tables st.table_map is_single_table
          select_sql.project_exprs.reverse [] st.calls with
      | ProjRun.left e calls => ⟨e, stmt, select_sql, calls⟩
      | ProjRun.done projects calls =>
        let select_sql := { select_sql with project_exprs := [] }
        let default_table : Option Table :=
          if st.tables.length = 1 then st.tables[0]? else none
        let r := env.filter_create db default_table st.table_map select_sql.conditions
        let calls := calls ++
          [Call.filter_create default_table st.table_map select_sql.conditions]
        if r.1 ≠ RC.SUCCESS then ⟨Exit.returned r.1, stmt, select_sql, calls⟩
        else ⟨Exit.returned RC.SUCCESS, some ⟨join_tables, projects, r.2⟩, select_sql, calls⟩

/-! ## Vocabulary of the claims -/

/-- The field reference that wildcard expansion creates for one field. -/
def wildcard_entry (table : Table) (is_single_table : Bool) (field : FieldMeta) : Expression :=
  Expression.field
    { table_name := table.name, field_name := field.name,
      name := if is_single_table then field.name else table.name ++ "." ++ field.name,
      table := some table, field := some field }

/-- The expansion of one table as the claims word it: the fields with index at
least `sys_field_num` whose `visible()` flag is set, in catalog order, one
field reference each. -/
def wildcard_expansion (table : Table) (is_single_table : Bool) : List Expression :=
  ((table.table_meta.fields.drop table.table_meta.sys_field_num).filter
    (fun f => f.visible)).map (wildcard_entry table is_single_table)

/-- What one index contributes to the loop of `wildcard_fields`. -/
def wildcard_at (table : Table) (is_single_table : Bool) (i : Nat) : Option Expression :=
  match table.table_meta.field i with
  | none => none
  | some field => if field.visible then some (wildcard_entry table is_single_table field) else none

/-- The relation names of a FROM clause in source order: for each entry its
base relation, then its joined relations. -/
def from_names (relations : List InnerJoinSqlNode) : List String :=
  relations.flatMap (fun r => r.base_relation :: r.join_relations)

/-- The locals agree with the catalog on the names `ns` resolved so far: the
table list holds their handles in order, and the map binds exactly them. -/
def Agrees (db : Db) (ns : List String) (st : Locals) : Prop :=
  st.tables.map some = ns.map db.find_table ∧
  ∀ n, TableMap.find st.table_map n = if n ∈ ns then db.find_table n else none

/-- The locals at the entry of the FROM loop. -/
def Locals.init : Locals := ⟨[], [], []⟩

/-- A call that resolves a projection: a schema check or a wildcard expansion. -/
def Call.is_projection : Call → Bool
  | Call.check_field _ => true
  | Call.wildcard_fields _ => true
  | _ => false

/-- A call of the predicate builder. -/
def Call.is_predicate : Call → Bool
  | Call.filter_create _ _ _ => true
  | _ => false

/-- The shape of a join chain: its base table and the tables of its steps. -/
def JoinTables.shape (jt : JoinTables) : Option Table × List (Option Table) :=
  (jt.base, jt.steps.map Prod.fst)

/-- The ways FROM resolution can leave `create`, read off the exit and the
call log at that point: the last call was a catalog lookup that found nothing
and the code is `SCHEMA_TABLE_NOT_EXIST`, or an `ASSERT` failed, or the last
call was a predicate build and its failure code is the code returned. -/
def FromFailure (env : Collab) (db : Db) (e : Exit) (calls : List Call) : Prop :=
  (∃ pre n, calls = pre ++ [Call.find_table n] ∧ db.find_table n = none ∧
      e = Exit.returned RC.SCHEMA_TABLE_NOT_EXIST) ∨
  (∃ msg, e = Exit.aborted msg) ∨
  (∃ pre d tm cs, calls = pre ++ [Call.filter_create d tm cs] ∧
      (env.filter_create db d tm cs).1 ≠ RC.SUCCESS ∧
      e = Exit.returned (env.filter_create db d tm cs).1)

/-- The entries one raw projection expression resolves to, given the resolved
tables, the lookup of the table map and the single-table flag: a wildcard
`*` or `*.*` gives the expansion of every table in order, a scoped wildcard
`t.*` the expansion of the table bound to `t` (nothing when `t` is unbound),
and every other expression gives itself. -/
def entries_of (tables : List Table) (find : String → Option Table) (is_single_table : Bool) :
    Expression → List Expression
  | Expression.field fe =>
    if fe.field_name = "*" then
      if fe.table_name = "*" then tables.flatMap (fun t => wildcard_expansion t is_single_table)
      else
        match find fe.table_name with
        | some t => wildcard_expansion t is_single_table
        | none => []
    else [Expression.field fe]
  | e => [e]

/-- The handles of the FROM clause: the catalog's answer for each relation
name in source order. -/
def resolved_tables (db : Db) (relations : List InnerJoinSqlNode) : List Table :=
  (from_names relations).filterMap db.find_table

/-- The scope of the FROM clause: a name is bound, to the catalog's answer,
exactly when it is one of the relation names of the clause. -/
def scope_find (db : Db) (relations : List InnerJoinSqlNode) (n : String) : Option Table :=
  if n ∈ from_names relations then db.find_table n else none

/-- The entries a raw projection expression resolves to in a bind over the
given FROM clause. -/
def resolved_entries (db : Db) (relations : List InnerJoinSqlNode) :
    Expression → List Expression :=
  entries_of (resolved_tables db relations) (scope_find db relations)
    ((resolved_tables db relations).length == 1)

/-- A wildcard projection: a field reference whose field part is `*`. -/
def Expression.is_wildcard : Expression → Bool
  | Expression.field fe => fe.field_name = "*"
  | _ => false

/-- The default table of the WHERE predicate. -/
def default_table_of (tables : List Table) : Option Table :=
  if tables.length = 1 then tables[0]? else none

/-! ## Sample catalog and queries -/

/-- A table with one system field, then `a`, a hidden field and `b`. -/
def sample_t1 : Table :=
  ⟨"T1", ⟨1, [⟨"__trx", true⟩, ⟨"a", true⟩, ⟨"h", false⟩, ⟨"b", true⟩]⟩⟩

/-- A table with the single field `c`. -/
def sample_t2 : Table := ⟨"T2", ⟨0, [⟨"c", true⟩]⟩⟩

/-- A table of the catalog that the sample queries leave out of FROM. -/
def sample_t3 : Table := ⟨"T3", ⟨0, [⟨"d", true⟩]⟩⟩

/-- A catalog holding `T1`, `T2` and `T3`. -/
def sample_db : Db :=
  ⟨fun n => if n = "T1" then some sample_t1 else if n = "T2" then some sample_t2
    else if n = "T3" then some sample_t3 else none⟩

/-- Collaborators that accept everything: every schema check passes and every
predicate build succeeds, giving a predicate tagged by the number of its
fragments. -/
def sample_env : Collab :=
  ⟨fun _ _ _ _ => RC.SUCCESS, fun _ _ _ cs => (RC.SUCCESS, some ⟨cs.length⟩),
    fun s => s.data.all Char.isWhitespace⟩

/-- Collaborators whose predicate builder rejects every non-empty fragment list. -/
def strict_env : Collab :=
  ⟨fun _ _ _ _ => RC.SUCCESS,
    fun _ _ _ cs => if cs.isEmpty then (RC.SUCCESS, some ⟨0⟩) else (RC.OTHER 7, none),
    fun s => s.data.all Char.isWhitespace⟩

/-- The raw wildcard `*`. -/
def star_expr : Expression := Expression.field ⟨"*", "*", "", none, none⟩

/-- A raw scoped wildcard `t.*`. -/
def scoped_star (t : String) : Expression := Expression.field ⟨t, "*", "", none, none⟩

/-- The query `SELECT e0, e1 FROM T1` with two opaque expressions. -/
def sample_two_exprs : SelectSqlNode :=
  ⟨[Expression.other 0, Expression.other 1], [⟨"T1", [], []⟩], []⟩

/-- The query `SELECT * FROM T1`. -/
def sample_star_one : SelectSqlNode := ⟨[star_expr], [⟨"T1", [], []⟩], []⟩

/-- The query `SELECT * FROM T1, T2`. -/
def sample_star_two : SelectSqlNode := ⟨[star_expr], [⟨"T1", [], []⟩, ⟨"T2", [], []⟩], []⟩

/-- The query `SELECT T1.* FROM T1, T2`. -/
def sample_scoped : SelectSqlNode :=
  ⟨[scoped_star "T1"], [⟨"T1", [], []⟩, ⟨"T2", [], []⟩], []⟩

/-- The query `SELECT T3.* FROM T1, T2`. -/
def sample_scoped_absent : SelectSqlNode :=
  ⟨[scoped_star "T3"], [⟨"T1", [], []⟩, ⟨"T2", [], []⟩], []⟩

/-- A FROM clause whose second entry has two joined relations and one
condition list, after a well-formed first entry with a join. -/
def sample_malformed_second : SelectSqlNode :=
  ⟨[star_expr], [⟨"T1", ["T2"], [[⟨1⟩]]⟩, ⟨"T3", ["T1", "T2"], [[⟨2⟩]]⟩], []⟩

/-- A FROM clause whose only entry is malformed and has an unknown base. -/
def sample_malformed_unknown : SelectSqlNode :=
  ⟨[star_expr], [⟨"T9", ["T1", "T2"], [[⟨2⟩]]⟩], []⟩

/-- The query `SELECT * FROM` the relation with the empty name. -/
def sample_empty_name : SelectSqlNode := ⟨[star_expr], [⟨"", [], []⟩], []⟩

/-- The query `SELECT * FROM T1 INNER JOIN T2 ON c, T3 INNER JOIN T1 ON c`. -/
def sample_two_chains : SelectSqlNode :=
  ⟨[star_expr], [⟨"T1", ["T2"], [[⟨1⟩]]⟩, ⟨"T3", ["T1"], [[⟨2⟩]]⟩], [⟨3⟩]⟩

/-- The code the predicate builder handed back at a logged call of it. -/
def Call.predicate_code (env : Collab) (db : Db) : Call → Option RC
  | Call.filter_create d tm cs => some (env.filter_create db d tm cs).1
  | _ => none

/-- Every predicate build in the log succeeded. -/
def CallsOk (env : Collab) (db : Db) (calls : List Call) : Prop :=
  ∀ c ∈ calls, ∀ e, Call.predicate_code env db c = some e → e = RC.SUCCESS

/-- The exit `x` is the return of the code of every failed predicate build of
the log. -/
def Blames (env : Collab) (db : Db) (x : Exit) (calls : List Call) : Prop :=
  ∀ c ∈ calls, ∀ e, Call.predicate_code env db c = some e → e ≠ RC.SUCCESS →
    x = Exit.returned e

/-- The query `SELECT * FROM T1 INNER JOIN T2 ON c WHERE c` with one fragment
in each condition list. -/
def sample_join_where : SelectSqlNode :=
  ⟨[star_expr], [⟨"T1", ["T2"], [[⟨1⟩]]⟩], [⟨3⟩]⟩

/-- The query `SELECT * FROM T1 WHERE c`. -/
def sample_where : SelectSqlNode := ⟨[star_expr], [⟨"T1", [], []⟩], [⟨3⟩]⟩

/-- The call log a run of the projection loop ends with. -/
def ProjRun.calls : ProjRun → List Call
  | ProjRun.done _ calls => calls
  | ProjRun.left _ calls => calls

/-- The query `SELECT e0, T1.* FROM T1, T2` with an opaque expression `e0`. -/
def sample_mixed : SelectSqlNode :=
  ⟨[Expression.other 0, scoped_star "T1"], [⟨"T1", [], []⟩, ⟨"T2", [], []⟩], []⟩

/-- A query over `T1` whose only raw projection is a Star-kind node. -/
def sample_star_node : SelectSqlNode := ⟨[Expression.star 0], [⟨"T1", [], []⟩], []⟩

/-- The table map after the relation names `ns` have been resolved in order
from the empty map: each name the catalog knows is inserted with its handle. -/
def map_of (db : Db) (ns : List String) : TableMap :=
  ns.foldl (fun m n =>
    match db.find_table n with
    | some t => TableMap.insert m n t
    | none => m) []

/-- The predicate builds for the joins of one FROM entry with base relation
`base`, in order, when `ns` are the names resolved before the first of the
joined relations: the build for a joined relation has the handle of the base
as default table, the table map of the names resolved up to and including
this joined relation, and the condition fragments paired with it. -/
def join_calls_of (db : Db) (base : String) :
    List String → List (String × List ConditionSqlNode) → List Call
  | _, [] => []
  | ns, (n, cs) :: rest =>
    Call.filter_create (db.find_table base) (map_of db (ns ++ [n])) cs ::
      join_calls_of db base (ns ++ [n]) rest

/-- The pointers those predicate builds leave behind, in the same order. -/
def join_preds_of (env : Collab) (db : Db) (base : String) :
    List String → List (String × List ConditionSqlNode) → List (Option FilterStmt)
  | _, [] => []
  | ns, (n, cs) :: rest =>
    (env.filter_create db (db.find_table base) (map_of db (ns ++ [n])) cs).2 ::
      join_preds_of env db base (ns ++ [n]) rest

/-- The predicate builds for the joins of a FROM clause, entry by entry, when
`ns` are the names resolved before its first entry. -/
def from_join_calls (db : Db) : List String → List InnerJoinSqlNode → List Call
  | _, [] => []
  | ns, r :: rest =>
    join_calls_of db r.base_relation (ns ++ [r.base_relation])
        (r.join_relations.zip r.conditions) ++
      from_join_calls db (ns ++ r.base_relation :: r.join_relations) rest

/-- The pointers those predicate builds leave behind, one list per FROM entry. -/
def from_join_preds (env : Collab) (db : Db) :
    List String → List InnerJoinSqlNode → List (List (Option FilterStmt))
  | _, [] => []
  | ns, r :: rest =>
    join_preds_of env db r.base_relation (ns ++ [r.base_relation])
        (r.join_relations.zip r.conditions) ::
      from_join_preds env db (ns ++ r.base_relation :: r.join_relations) rest

/-- The query `SELECT e0 FROM T1 INNER JOIN T2 ON c1 INNER JOIN T3 ON c2, T2`
with an opaque expression `e0`, and a WHERE fragment. -/
def sample_three_joins : SelectSqlNode :=
  ⟨[Expression.other 0], [⟨"T1", ["T2", "T3"], [[⟨1⟩], [⟨2⟩]]⟩, ⟨"T2", [], []⟩], [⟨3⟩]⟩

/-- Collaborators whose schema check rejects the opaque expression tagged `1`
with `SCHEMA_FIELD_MISSING` and the one tagged `2` with `OTHER 9`. -/
def picky_env : Collab :=
  ⟨fun e _ _ _ =>
      if e = Expression.other 1 then RC.SCHEMA_FIELD_MISSING
      else if e = Expression.other 2 then RC.OTHER 9 else RC.SUCCESS,
    fun _ _ _ cs => (RC.SUCCESS, some ⟨cs.length⟩),
    fun s => s.data.all Char.isWhitespace⟩

/-- The query `SELECT e0, e3, * FROM T1` with opaque expressions `e0`, `e3`. -/
def sample_three_exprs : SelectSqlNode :=
  ⟨[Expression.other 0, Expression.other 3, star_expr], [⟨"T1", [], []⟩], []⟩

/-- The query `SELECT e1, e0, e2, * FROM T1` with opaque expressions. -/
def sample_two_failing : SelectSqlNode :=
  ⟨[Expression.other 1, Expression.other 0, Expression.other 2, star_expr],
    [⟨"T1", [], []⟩], []⟩

/-- The query `SELECT * FROM T1, T1`. -/
def sample_star_twice : SelectSqlNode := ⟨[star_expr], [⟨"T1", [], []⟩, ⟨"T1", [], []⟩], []⟩

theorem wildcard_fields_body_eq (table : Table) (s : Bool) (ps : List Expression) (i : Nat) :
    wildcard_fields_body table s ps i = ps ++ (wildcard_at table s i).toList := by
  unfold wildcard_fields_body wildcard_at
  cases hf : table.table_meta.field i with
  | none => simp
  | some f =>
    cases hv : f.visible <;> cases s <;>
      simp [hv, wildcard_entry, FieldExpr.ofField, FieldExpr.set_name]

theorem foldl_wildcard_body (table : Table) (s : Bool) (l : List Nat) (ps : List Expression) :
    l.foldl (wildcard_fields_body table s) ps = ps ++ l.filterMap (wildcard_at table s) := by
  induction l generalizing ps with
  | nil => simp
  | cons i l ih =>
    rw [List.foldl_cons, ih, wildcard_fields_body_eq]
    cases h : wildcard_at table s i <;> simp [List.filterMap_cons, h]

theorem filterMap_range_drop (table : Table) (s : Bool) (d k : Nat)
    (h : k + d = table.table_meta.fields.length) :
    (List.range' k d).filterMap (wildcard_at table s) =
      ((table.table_meta.fields.drop k).filter (fun f => f.visible)).map
        (wildcard_entry table s) := by
  induction d generalizing k with
  | zero =>
    have hk : table.table_meta.fields.length ≤ k := by omega
    simp [List.drop_eq_nil_of_le hk]
  | succ d ih =>
    have hk : k < table.table_meta.fields.length := by omega
    have hget : table.table_meta.field k = some (table.table_meta.fields[k]) := by
      simp [TableMeta.field, List.getElem?_eq_getElem hk]
    rw [List.range'_succ, List.drop_eq_getElem_cons hk, List.filterMap_cons, ih (k + 1) (by omega),
      List.filter_cons]
    cases hv : (table.table_meta.fields[k]).visible <;>
      simp only [wildcard_at, hget, hv, List.map_cons, if_true, if_false, Bool.false_eq_true]

/-- The loop of `wildcard_fields` leaves the entries it is given in place and
appends the expansion of the table. -/
theorem wildcard_fields_eq (table : Table) (ps : List Expression) (s : Bool) :
    wildcard_fields table ps s = ps ++ wildcard_expansion table s := by
  unfold wildcard_fields wildcard_expansion TableMeta.field_num
  rw [foldl_wildcard_body]
  congr 1
  by_cases hk : table.table_meta.sys_field_num ≤ table.table_meta.fields.length
  · exact filterMap_range_drop table s _ _ (by omega)
  · have h0 : table.table_meta.fields.length - table.table_meta.sys_field_num = 0 := by omega
    have hle : table.table_meta.fields.length ≤ table.table_meta.sys_field_num := by omega
    simp [h0, List.drop_eq_nil_of_le hle]

theorem find_nil (n : String) : TableMap.find [] n = none := rfl

theorem find_append_single (m : TableMap) (k : String) (t : Table) (n : String) :
    TableMap.find (m ++ [(k, t)]) n =
      match TableMap.find m n with
      | some x => some x
      | none => if k = n then some t else none := by
  unfold TableMap.find
  rw [List.find?_append]
  cases h : List.find? (fun p => p.1 == n) m with
  | some p => simp
  | none =>
    by_cases hk : k = n
    · simp [hk]
    · simp [hk]

theorem find_insert (m : TableMap) (k : String) (t : Table) (n : String) :
    TableMap.find (TableMap.insert m k t) n =
      match TableMap.find m n with
      | some x => some x
      | none => if k = n then some t else none := by
  unfold TableMap.insert
  cases hk : TableMap.find m k with
  | none => simp only [find_append_single]
  | some y =>
    cases hn : TableMap.find m n with
    | some x => simp [hn]
    | none =>
      have hne : k ≠ n := by
        intro h
        rw [h, hn] at hk
        exact Option.noConfusion hk
      simp [hn, hne]

theorem cct_null (db : Db) (st : Locals) :
    check_and_collect_tables db none st = (RC.INVALID_ARGUMENT, st) := rfl

theorem cct_missing {db : Db} {n : String} (st : Locals) (h : db.find_table n = none) :
    check_and_collect_tables db (some n) st =
      (RC.SCHEMA_TABLE_NOT_EXIST, { st with calls := st.calls ++ [Call.find_table n] }) := by
  simp [check_and_collect_tables, h]

theorem cct_found {db : Db} {n : String} {t : Table} (st : Locals) (h : db.find_table n = some t) :
    check_and_collect_tables db (some n) st =
      (RC.SUCCESS, { tables := st.tables ++ [t], table_map := TableMap.insert st.table_map n t,
                     calls := st.calls ++ [Call.find_table n] }) := by
  simp [check_and_collect_tables, h]

theorem agrees_init (db : Db) : Agrees db [] Locals.init := by
  constructor
  · rfl
  · intro n
    simp [Locals.init, find_nil]

theorem agrees_resolves {db : Db} {ns : List String} {st : Locals} (h : Agrees db ns st)
    {n : String} (hn : n ∈ ns) : ∃ t, db.find_table n = some t := by
  have hmem : db.find_table n ∈ ns.map db.find_table := List.mem_map_of_mem _ hn
  rw [← h.1] at hmem
  obtain ⟨t, _, ht⟩ := List.mem_map.1 hmem
  exact ⟨t, ht.symm⟩

theorem agrees_push {db : Db} {ns : List String} {st : Locals} (h : Agrees db ns st)
    {n : String} {t : Table} (hf : db.find_table n = some t) (calls : List Call) :
    Agrees db (ns ++ [n])
      { tables := st.tables ++ [t], table_map := TableMap.insert st.table_map n t,
        calls := calls } := by
  constructor
  · simp [h.1, hf]
  · intro x
    simp only [find_insert, h.2 x, List.mem_append, List.mem_singleton]
    by_cases hx : x ∈ ns
    · obtain ⟨y, hy⟩ := agrees_resolves h hx
      simp [hx, hy]
    · by_cases hxn : n = x
      · subst hxn
        simp [hx, hf]
      · have hxn2 : ¬ x = n := fun e => hxn e.symm
        simp [hx, hxn, hxn2]

theorem agrees_calls {db : Db} {ns : List String} {st : Locals} (h : Agrees db ns st)
    (calls : List Call) : Agrees db ns { st with calls := calls } := h

theorem join_loop_cons_missing (env : Collab) {db : Db} (b : String) {n : String}
    (conds : List ConditionSqlNode) (rest : List (String × List ConditionSqlNode))
    (jt : JoinTables) (st : Locals) (hf : db.find_table n = none) :
    join_loop env db b ((n, conds) :: rest) jt st =
      Run.left (Exit.returned RC.SCHEMA_TABLE_NOT_EXIST)
        { st with calls := st.calls ++ [Call.find_table n] } := by
  simp [join_loop, cct_missing st hf]

theorem join_loop_cons_found (env : Collab) {db : Db} (b : String) {n : String} {t : Table}
    (conds : List ConditionSqlNode) (rest : List (String × List ConditionSqlNode))
    (jt : JoinTables) (st : Locals) (hf : db.find_table n = some t) :
    join_loop env db b ((n, conds) :: rest) jt st =
      (let tm := TableMap.insert st.table_map n t
       let r := env.filter_create db (TableMap.find tm b) tm conds
       let st2 : Locals :=
         { tables := st.tables ++ [t], table_map := tm,
           calls := st.calls ++ [Call.find_table n] ++
             [Call.filter_create (TableMap.find tm b) tm conds] }
       if r.1 ≠ RC.SUCCESS then Run.left (Exit.returned r.1) st2
       else
         match r.2 with
         | none => Run.left (Exit.aborted "FilterStmt is null!") st2
         | some f => join_loop env db b rest (jt.push_join_table (TableMap.find tm n) f) st2) := by
  simp [join_loop, cct_found st hf]

theorem join_loop_done {env : Collab} {db : Db} {b : String}
    (l : List (String × List ConditionSqlNode)) :
    ∀ (jt : JoinTables) (st : Locals) (jt' : JoinTables) (st' : Locals) (ns : List String),
      Agrees db ns st → join_loop env db b l jt st = Run.done jt' st' →
      Agrees db (ns ++ l.map Prod.fst) st' ∧ jt'.base = jt.base ∧
        jt'.steps.map Prod.fst = jt.steps.map Prod.fst ++ l.map (fun p => db.find_table p.1) := by
  induction l with
  | nil =>
    intro jt st jt' st' ns ha h
    simp only [join_loop, Run.done.injEq] at h
    obtain ⟨h1, h2⟩ := h
    subst h1 h2
    simpa using ha
  | cons p rest ih =>
    obtain ⟨n, conds⟩ := p
    intro jt st jt' st' ns ha h
    cases hf : db.find_table n with
    | none =>
      rw [join_loop_cons_missing env b conds rest jt st hf] at h
      exact Run.noConfusion h
    | some t =>
      rw [join_loop_cons_found env b conds rest jt st hf] at h
      simp only at h
      split at h
      · exact Run.noConfusion h
      · split at h
        · exact Run.noConfusion h
        · rename_i f hr2
          have ha2 := agrees_push ha hf (st.calls ++ [Call.find_table n] ++
            [Call.filter_create (TableMap.find (TableMap.insert st.table_map n t) b)
              (TableMap.insert st.table_map n t) conds])
          obtain ⟨h1, h2, h3⟩ := ih _ _ _ _ _ ha2 h
          refine ⟨by simpa using h1, by simpa [JoinTables.push_join_table] using h2, ?_⟩
          have hfind : TableMap.find (TableMap.insert st.table_map n t) n = db.find_table n := by
            have := ha2.2 n
            simpa using this
          rw [h3]
          simp [JoinTables.push_join_table, hfind]

theorem join_loop_left {env : Collab} {db : Db} {b : String}
    (l : List (String × List ConditionSqlNode)) :
    ∀ (jt : JoinTables) (st : Locals) (e : Exit) (st' : Locals),
      join_loop env db b l jt st = Run.left e st' → FromFailure env db e st'.calls := by
  induction l with
  | nil =>
    intro jt st e st' h
    simp [join_loop] at h
  | cons p rest ih =>
    obtain ⟨n, conds⟩ := p
    intro jt st e st' h
    cases hf : db.find_table n with
    | none =>
      rw [join_loop_cons_missing env b conds rest jt st hf] at h
      simp only [Run.left.injEq] at h
      obtain ⟨h1, h2⟩ := h
      subst h1 h2
      exact Or.inl ⟨st.calls, n, rfl, hf, rfl⟩
    | some t =>
      rw [join_loop_cons_found env b conds rest jt st hf] at h
      simp only at h
      split at h
      · rename_i hne
        simp only [Run.left.injEq] at h
        obtain ⟨h1, h2⟩ := h
        subst h1 h2
        exact Or.inr (Or.inr ⟨_, _, _, _, rfl, hne, rfl⟩)
      · split at h
        · simp only [Run.left.injEq] at h
          exact Or.inr (Or.inl ⟨_, h.1.symm⟩)
        · exact ih _ _ _ _ h

theorem from_loop_cons_missing (env : Collab) {db : Db} (r : InnerJoinSqlNode)
    (rest : List InnerJoinSqlNode) (jts : List JoinTables) (st : Locals)
    (hf : db.find_table r.base_relation = none) :
    from_loop env db (r :: rest) jts st =
      Run.left (Exit.returned RC.SCHEMA_TABLE_NOT_EXIST)
        { st with calls := st.calls ++ [Call.find_table r.base_relation] } := by
  simp [from_loop, cct_missing st hf]

theorem from_loop_cons_found (env : Collab) {db : Db} (r : InnerJoinSqlNode) {t : Table}
    (rest : List InnerJoinSqlNode) (jts : List JoinTables) (st : Locals)
    (hf : db.find_table r.base_relation = some t) :
    from_loop env db (r :: rest) jts st =
      (let st1 : Locals :=
         { tables := st.tables ++ [t],
           table_map := TableMap.insert st.table_map r.base_relation t,
           calls := st.calls ++ [Call.find_table r.base_relation] }
       if r.join_relations.length ≠ r.conditions.length then
         Run.left (Exit.aborted "Select InnerJoin size error!") st1
       else
         match join_loop env db r.base_relation (r.join_relations.zip r.conditions)
             { base := TableMap.find st1.table_map r.base_relation, steps := [] } st1 with
         | Run.done jt st2 => from_loop env db rest (jts ++ [jt]) st2
         | Run.left e st2 => Run.left e st2) := by
  simp [from_loop, cct_found st hf]

theorem from_loop_done {env : Collab} {db : Db} (rels : List InnerJoinSqlNode) :
    ∀ (jts : List JoinTables) (st : Locals) (jts' : List JoinTables) (st' : Locals)
      (ns : List String),
      Agrees db ns st → from_loop env db rels jts st = Run.done jts' st' →
      Agrees db (ns ++ from_names rels) st' ∧
        jts'.map JoinTables.shape = jts.map JoinTables.shape ++
          rels.map (fun r => (db.find_table r.base_relation,
            r.join_relations.map db.find_table)) := by
  induction rels with
  | nil =>
    intro jts st jts' st' ns ha h
    simp only [from_loop, Run.done.injEq] at h
    obtain ⟨h1, h2⟩ := h
    subst h1 h2
    simpa [from_names] using ha
  | cons r rest ih =>
    intro jts st jts' st' ns ha h
    cases hf : db.find_table r.base_relation with
    | none =>
      rw [from_loop_cons_missing env r rest jts st hf] at h
      exact Run.noConfusion h
    | some t =>
      rw [from_loop_cons_found env r rest jts st hf] at h
      simp only at h
      split at h
      · exact Run.noConfusion h
      · rename_i hlen
        have hlen2 : r.join_relations.length = r.conditions.length := by
          by_contra hc
          exact hlen hc
        split at h
        · rename_i jt st2 hj
          have ha1 := agrees_push ha hf (st.calls ++ [Call.find_table r.base_relation])
          obtain ⟨ha2, hb, hs⟩ := join_loop_done _ _ _ _ _ _ ha1 hj
          have hz : (r.join_relations.zip r.conditions).map Prod.fst = r.join_relations :=
            List.map_fst_zip _ _ (le_of_eq hlen2)
          rw [hz] at ha2
          obtain ⟨ha3, hs3⟩ := ih _ _ _ _ _ ha2 h
          have hbase : TableMap.find (TableMap.insert st.table_map r.base_relation t)
              r.base_relation = db.find_table r.base_relation := by
            have := ha1.2 r.base_relation
            simpa using this
          have hmap : (r.join_relations.zip r.conditions).map (fun p => db.find_table p.1) =
              r.join_relations.map db.find_table := by
            rw [← hz, List.map_map]
            simp [Function.comp_def, hz]
          refine ⟨by simpa [from_names, List.append_assoc] using ha3, ?_⟩
          rw [hs3]
          simp only [List.map_append, List.map_cons, List.map_nil, List.append_assoc,
            List.singleton_append]
          congr 1
          simp only [JoinTables.shape, hb, hs, hbase, hmap, List.map_nil, List.nil_append]
        · exact Run.noConfusion h

theorem from_loop_left {env : Collab} {db : Db} (rels : List InnerJoinSqlNode) :
    ∀ (jts : List JoinTables) (st : Locals) (e : Exit) (st' : Locals),
      from_loop env db rels jts st = Run.left e st' → FromFailure env db e st'.calls := by
  induction rels with
  | nil =>
    intro jts st e st' h
    simp [from_loop] at h
  | cons r rest ih =>
    intro jts st e st' h
    cases hf : db.find_table r.base_relation with
    | none =>
      rw [from_loop_cons_missing env r rest jts st hf] at h
      simp only [Run.left.injEq] at h
      obtain ⟨h1, h2⟩ := h
      subst h1 h2
      exact Or.inl ⟨st.calls, r.base_relation, rfl, hf, rfl⟩
    | some t =>
      rw [from_loop_cons_found env r rest jts st hf] at h
      simp only at h
      split at h
      · simp only [Run.left.injEq] at h
        exact Or.inr (Or.inl ⟨_, h.1.symm⟩)
      · split at h
        · exact ih _ _ _ _ h
        · rename_i e2 st2 hj
          simp only [Run.left.injEq] at h
          obtain ⟨h1, h2⟩ := h
          subst h1 h2
          exact join_loop_left _ _ _ _ _ hj

theorem from_failure_ne_success {env : Collab} {db : Db} {e : Exit} {calls : List Call}
    (h : FromFailure env db e calls) : e ≠ Exit.returned RC.SUCCESS := by
  rcases h with ⟨_, _, _, _, he⟩ | ⟨_, he⟩ | ⟨_, _, _, _, _, hne, he⟩
  · rw [he]; simp
  · rw [he]; simp
  · rw [he]
    intro hc
    simp only [Exit.returned.injEq] at hc
    exact hne hc

theorem from_loop_append (env : Collab) (db : Db) (pre post : List InnerJoinSqlNode) :
    ∀ (jts : List JoinTables) (st : Locals),
      from_loop env db (pre ++ post) jts st =
        match from_loop env db pre jts st with
        | Run.done jts' st' => from_loop env db post jts' st'
        | Run.left e st' => Run.left e st' := by
  induction pre with
  | nil =>
    intro jts st
    simp [from_loop]
  | cons r rest ih =>
    intro jts st
    cases hf : db.find_table r.base_relation with
    | none =>
      rw [List.cons_append, from_loop_cons_missing env r _ jts st hf,
        from_loop_cons_missing env r _ jts st hf]
    | some t =>
      rw [List.cons_append, from_loop_cons_found env r _ jts st hf,
        from_loop_cons_found env r _ jts st hf]
      simp only
      split
      · rfl
      · split
        · exact ih _ _
        · rfl

theorem foldl_wildcard_fields (s : Bool) (tables : List Table) :
    ∀ ps : List Expression,
      tables.foldl (fun ps table => wildcard_fields table ps s) ps =
        ps ++ tables.flatMap (fun t => wildcard_expansion t s) := by
  induction tables with
  | nil => intro ps; simp
  | cons t rest ih =>
    intro ps
    rw [List.foldl_cons, ih, wildcard_fields_eq]
    simp [List.flatMap_cons]

theorem check_and_keep_done {env : Collab} {db : Db} {tables : List Table} {tm : TableMap}
    {e : Expression} {ps ps' : List Expression} {calls calls' : List Call}
    (h : check_and_keep env db tables tm e ps calls = ProjRun.done ps' calls') :
    ps' = ps ++ [e] ∧ env.check_field e tm tables db = RC.SUCCESS ∧
      calls' = calls ++ [Call.check_field e] := by
  unfold check_and_keep at h
  simp only at h
  split at h
  · exact ProjRun.noConfusion h
  · rename_i hrc
    simp only [ProjRun.done.injEq] at h
    exact ⟨h.1.symm, by simpa using hrc, h.2.symm⟩

theorem check_and_keep_left {env : Collab} {db : Db} {tables : List Table} {tm : TableMap}
    {e : Expression} {ps : List Expression} {calls calls' : List Call} {x : Exit}
    (h : check_and_keep env db tables tm e ps calls = ProjRun.left x calls') :
    x = Exit.returned (env.check_field e tm tables db) ∧
      env.check_field e tm tables db ≠ RC.SUCCESS ∧ calls' = calls ++ [Call.check_field e] := by
  unfold check_and_keep at h
  simp only at h
  split at h
  · rename_i hrc
    simp only [ProjRun.left.injEq] at h
    exact ⟨h.1.symm, hrc, h.2.symm⟩
  · exact ProjRun.noConfusion h

theorem project_body_done {env : Collab} {db : Db} {tables : List Table} {tm : TableMap}
    {s : Bool} {e : Expression} {ps ps' : List Expression} {calls calls' : List Call}
    (h : project_body env db tables tm s e ps calls = ProjRun.done ps' calls') :
    ps' = ps ++ entries_of tables (TableMap.find tm) s e := by
  cases e with
  | field fe =>
    simp only [project_body] at h
    split at h
    · exact ProjRun.noConfusion h
    · split at h
      · rename_i hstar
        simp only [ProjRun.done.injEq] at h
        rw [← h.1, foldl_wildcard_fields]
        simp [entries_of, hstar.1, hstar.2]
      · split at h
        · rename_i hnot hf
          split at h
          · exact ProjRun.noConfusion h
          · rename_i ht
            split at h
            · exact ProjRun.noConfusion h
            · rename_i t hfind
              simp only [ProjRun.done.injEq] at h
              rw [← h.1, wildcard_fields_eq]
              simp [entries_of, hf, ht, hfind]
        · rename_i hnot hf
          rw [(check_and_keep_done h).1]
          simp [entries_of, hf]
  | star tag =>
    simp only [project_body] at h
    rw [(check_and_keep_done h).1]
    simp [entries_of]
  | other tag =>
    simp only [project_body] at h
    rw [(check_and_keep_done h).1]
    simp [entries_of]

theorem project_body_left {env : Collab} {db : Db} {tables : List Table} {tm : TableMap}
    {s : Bool} {e : Expression} {ps : List Expression} {calls calls' : List Call} {x : Exit}
    (h : project_body env db tables tm s e ps calls = ProjRun.left x calls') :
    x ≠ Exit.returned RC.SUCCESS := by
  have hck : ∀ {e : Expression}, check_and_keep env db tables tm e ps calls =
      ProjRun.left x calls' → x ≠ Exit.returned RC.SUCCESS := by
    intro e h
    obtain ⟨h1, h2, _⟩ := check_and_keep_left h
    rw [h1]
    intro hc
    simp only [Exit.returned.injEq] at hc
    exact h2 hc
  cases e with
  | field fe =>
    simp only [project_body] at h
    split at h
    · simp only [ProjRun.left.injEq] at h
      rw [← h.1]; simp
    · split at h
      · exact ProjRun.noConfusion h
      · split at h
        · split at h
          · simp only [ProjRun.left.injEq] at h
            rw [← h.1]; simp
          · split at h
            · simp only [ProjRun.left.injEq] at h
              rw [← h.1]; simp
            · exact ProjRun.noConfusion h
        · exact hck h
  | star tag =>
    simp only [project_body] at h
    exact hck h
  | other tag =>
    simp only [project_body] at h
    exact hck h

theorem project_loop_done {env : Collab} {db : Db} {tables : List Table} {tm : TableMap}
    {s : Bool} (exprs : List Expression) :
    ∀ (ps ps' : List Expression) (calls calls' : List Call),
      project_loop env db tables tm s exprs ps calls = ProjRun.done ps' calls' →
      ps' = ps ++ exprs.flatMap (entries_of tables (TableMap.find tm) s) := by
  induction exprs with
  | nil =>
    intro ps ps' calls calls' h
    simp only [project_loop, ProjRun.done.injEq] at h
    simp [h.1]
  | cons e rest ih =>
    intro ps ps' calls calls' h
    simp only [project_loop] at h
    split at h
    · rename_i ps1 calls1 hb
      rw [ih _ _ _ _ h, project_body_done hb]
      simp [List.flatMap_cons]
    · exact ProjRun.noConfusion h

theorem project_loop_left {env : Collab} {db : Db} {tables : List Table} {tm : TableMap}
    {s : Bool} (exprs : List Expression) :
    ∀ (ps : List Expression) (calls calls' : List Call) (x : Exit),
      project_loop env db tables tm s exprs ps calls = ProjRun.left x calls' →
      x ≠ Exit.returned RC.SUCCESS := by
  induction exprs with
  | nil =>
    intro ps calls calls' x h
    simp [project_loop] at h
  | cons e rest ih =>
    intro ps calls calls' x h
    simp only [project_loop] at h
    split at h
    · exact ih _ _ _ _ h
    · rename_i x1 calls1 hb
      simp only [ProjRun.left.injEq] at h
      rw [← h.1]
      exact project_body_left hb

theorem agrees_tables {db : Db} {ns : List String} {st : Locals} (h : Agrees db ns st) :
    st.tables = ns.filterMap db.find_table := by
  have h1 : (st.tables.map some).filterMap id = (ns.map db.find_table).filterMap id := by
    rw [h.1]
  simpa [List.filterMap_map] using h1

theorem agrees_find {db : Db} {rels : List InnerJoinSqlNode} {st : Locals}
    (h : Agrees db (from_names rels) st) :
    TableMap.find st.table_map = scope_find db rels := by
  funext n
  rw [h.2 n]
  rfl

/-- A bind that returns `SUCCESS` went through the three stages, and its
statement is made of their products. -/
theorem create_success {env : Collab} {db : Db} {sql : SelectSqlNode} {stmt0 : Option Stmt}
    (h : (create env (some db) sql stmt0).exit = Exit.returned RC.SUCCESS) :
    ∃ jts st ps calls,
      from_loop env db sql.relations [] Locals.init = Run.done jts st ∧
      project_loop env db st.tables st.table_map (st.tables.length == 1)
        sql.project_exprs.reverse [] st.calls = ProjRun.done ps calls ∧
      (env.filter_create db (default_table_of st.tables) st.table_map sql.conditions).1 =
        RC.SUCCESS ∧
      create env (some db) sql stmt0 =
        ⟨Exit.returned RC.SUCCESS,
          some ⟨jts, ps,
            (env.filter_create db (default_table_of st.tables) st.table_map sql.conditions).2⟩,
          { sql with project_exprs := [] },
          calls ++ [Call.filter_create (default_table_of st.tables) st.table_map
            sql.conditions]⟩ := by
  unfold create at h ⊢
  simp only at h ⊢
  cases hfl : from_loop env db sql.relations [] Locals.init with
  | left e st =>
    rw [show from_loop env db sql.relations [] ⟨[], [], []⟩ = Run.left e st from hfl] at h
    simp only at h
    exact absurd h (from_failure_ne_success (from_loop_left _ _ _ _ _ hfl))
  | done jts st =>
    rw [show from_loop env db sql.relations [] ⟨[], [], []⟩ = Run.done jts st from hfl] at h ⊢
    simp only at h ⊢
    cases hpl : project_loop env db st.tables st.table_map (st.tables.length == 1)
        sql.project_exprs.reverse [] st.calls with
    | left e calls =>
      rw [hpl] at h
      simp only at h
      exact absurd h (project_loop_left _ _ _ _ _ hpl)
    | done ps calls =>
      rw [hpl] at h
      simp only at h ⊢
      by_cases hrc : (env.filter_create db (default_table_of st.tables) st.table_map
          sql.conditions).1 = RC.SUCCESS
      · refine ⟨jts, st, ps, calls, rfl, hpl, hrc, ?_⟩
        simp only [default_table_of] at hrc
        simp [hrc, default_table_of]
      · exfalso
        simp only [default_table_of] at hrc
        simp only [hrc, ne_eq, not_false_eq_true, if_true, Exit.returned.injEq] at h

/-- The projection list of a successful bind, in terms of the catalog and the
raw node: the raw expressions are taken last to first, and each contributes
the entries it resolves to. -/
theorem create_success_projects {env : Collab} {db : Db} {sql : SelectSqlNode}
    {stmt0 : Option Stmt}
    (h : (create env (some db) sql stmt0).exit = Exit.returned RC.SUCCESS) :
    ∃ s, (create env (some db) sql stmt0).stmt = some s ∧
      s.projects_ = sql.project_exprs.reverse.flatMap (resolved_entries db sql.relations) ∧
      (from_names sql.relations).map db.find_table =
        (resolved_tables db sql.relations).map some := by
  obtain ⟨jts, st, ps, calls, hfl, hpl, _, hc⟩ := create_success h
  obtain ⟨ha, _⟩ := from_loop_done _ _ _ _ _ _ (agrees_init db) hfl
  simp only [List.nil_append] at ha
  have ht : st.tables = resolved_tables db sql.relations := agrees_tables ha
  refine ⟨_, by rw [hc], ?_, ?_⟩
  · have hp := project_loop_done _ _ _ _ _ hpl
    simp only [List.nil_append] at hp
    rw [hp, agrees_find ha, ht]
    rfl
  · rw [← ht, ha.1]

theorem entries_of_not_wildcard (tables : List Table) (find : String → Option Table) (s : Bool)
    {e : Expression} (h : e.is_wildcard = false) : entries_of tables find s e = [e] := by
  cases e with
  | field fe =>
    have hf : ¬ fe.field_name = "*" := by simpa [Expression.is_wildcard] using h
    simp [entries_of, hf]
  | star tag => rfl
  | other tag => rfl

theorem flatMap_singleton_of {α : Type} (f : α → List α) (l : List α)
    (h : ∀ x ∈ l, f x = [x]) : l.flatMap f = l := by
  induction l with
  | nil => rfl
  | cons a l ih =>
    rw [List.flatMap_cons, h a (List.mem_cons_self _ _),
      ih (fun x hx => h x (List.mem_cons_of_mem _ hx))]
    rfl

theorem wildcard_expansion_name {t : Table} {s : Bool} {x : Expression}
    (h : x ∈ wildcard_expansion t s) :
    ∃ fe, x = Expression.field fe ∧ fe.table = some t ∧ fe.table_name = t.name ∧
      fe.name = if s = true then fe.field_name else fe.table_name ++ "." ++ fe.field_name := by
  unfold wildcard_expansion at h
  obtain ⟨f, _, hx⟩ := List.mem_map.1 h
  subst hx
  exact ⟨_, rfl, rfl, rfl, rfl⟩

theorem entries_of_wildcard_name {tables : List Table} {find : String → Option Table}
    {s : Bool} {e x : Expression} (he : e.is_wildcard = true)
    (h : x ∈ entries_of tables find s e) :
    ∃ fe, x = Expression.field fe ∧
      fe.name = if s = true then fe.field_name else fe.table_name ++ "." ++ fe.field_name := by
  cases e with
  | field fe =>
    have hf : fe.field_name = "*" := by simpa [Expression.is_wildcard] using he
    simp only [entries_of, hf, if_true] at h
    split at h
    · obtain ⟨t, _, hx⟩ := List.mem_flatMap.1 h
      obtain ⟨fe2, h1, _, _, h2⟩ := wildcard_expansion_name hx
      exact ⟨fe2, h1, h2⟩
    · split at h
      · obtain ⟨fe2, h1, _, _, h2⟩ := wildcard_expansion_name h
        exact ⟨fe2, h1, h2⟩
      · simp at h
  | star tag => simp [Expression.is_wildcard] at he
  | other tag => simp [Expression.is_wildcard] at he

/-- C1 (as amended): for every successful `SelectStmt::create` the projection
list is the concatenation, taken in reverse source order (last raw projection
expression first), of the entries each raw projection expression resolves to;
in particular raw non-wildcard expressions `[e0, ..., en-1]` give exactly
`[en-1, ..., e0]`. -/
theorem create_projects_reverse_source_order (env : Collab) (db : Db) (sql : SelectSqlNode)
    (stmt0 : Option Stmt)
    (h : (create env (some db) sql stmt0).exit = Exit.returned RC.SUCCESS) :
    ∃ s, (create env (some db) sql stmt0).stmt = some s ∧
      s.projects_ = (sql.project_exprs.reverse.map (resolved_entries db sql.relations)).flatten ∧
      ((∀ e ∈ sql.project_exprs, e.is_wildcard = false) →
        s.projects_ = sql.project_exprs.reverse) := by
  obtain ⟨s, hs, hp, _⟩ := create_success_projects h
  refine ⟨s, hs, by rw [hp, List.flatMap_def], ?_⟩
  intro hw
  rw [hp]
  apply flatMap_singleton_of
  intro x hx
  exact entries_of_not_wildcard _ _ _ (hw x (List.mem_reverse.1 hx))

/-- C1, at `SELECT e0, e1 FROM T1`: the bind succeeds and the projection list
is `[e1, e0]`. -/
theorem create_projects_reverse_source_order_witness :
    (create sample_env (some sample_db) sample_two_exprs none).exit =
        Exit.returned RC.SUCCESS ∧
      ∃ s, (create sample_env (some sample_db) sample_two_exprs none).stmt = some s ∧
        s.projects_ = (sample_two_exprs.project_exprs.reverse.map
          (resolved_entries sample_db sample_two_exprs.relations)).flatten ∧
        ((∀ e ∈ sample_two_exprs.project_exprs, e.is_wildcard = false) →
          s.projects_ = sample_two_exprs.project_exprs.reverse) :=
  ⟨by decide, create_projects_reverse_source_order sample_env sample_db sample_two_exprs none
    (by decide)⟩

/-- C1 as stated fails: `SELECT e0, e1 FROM T1` binds successfully, both
expressions pass `check_field`, and the projection list is `[e1, e0]`, not
`[e0, e1]`. -/
theorem create_projects_not_source_order :
    (create sample_env (some sample_db) sample_two_exprs none).exit =
        Exit.returned RC.SUCCESS ∧
      sample_two_exprs.project_exprs = [Expression.other 0, Expression.other 1] ∧
      (create sample_env (some sample_db) sample_two_exprs none).stmt.map Stmt.projects_ =
        some [Expression.other 1, Expression.other 0] ∧
      (create sample_env (some sample_db) sample_two_exprs none).stmt.map Stmt.projects_ ≠
        some sample_two_exprs.project_exprs := by
  decide

/-- C2: for every successful bind whose raw projection list is the single
wildcard `*` (table part `*`, field part `*`), the projection list is exactly,
for each resolved FROM table in FROM order, one field reference per field of
that table with index at least `sys_field_num` and `visible()` true, in catalog
order; the resolved tables are the catalog's handles of the FROM names. -/
theorem create_star_expands_all_tables (env : Collab) (db : Db) (sql : SelectSqlNode)
    (stmt0 : Option Stmt) (fe : FieldExpr)
    (h : (create env (some db) sql stmt0).exit = Exit.returned RC.SUCCESS)
    (hp : sql.project_exprs = [Expression.field fe])
    (ht : fe.table_name = "*") (hf : fe.field_name = "*") :
    ∃ s, (create env (some db) sql stmt0).stmt = some s ∧
      s.projects_ = ((resolved_tables db sql.relations).map (fun t =>
        ((t.table_meta.fields.drop t.table_meta.sys_field_num).filter
          (fun f => f.visible)).map
          (wildcard_entry t ((resolved_tables db sql.relations).length == 1)))).flatten ∧
      (from_names sql.relations).map db.find_table =
        (resolved_tables db sql.relations).map some := by
  obtain ⟨s, hs, hpr, hres⟩ := create_success_projects h
  refine ⟨s, hs, ?_, hres⟩
  rw [hpr, hp]
  simp [resolved_entries, entries_of, ht, hf, List.flatMap_def, wildcard_expansion]

/-- C2, at `SELECT * FROM T1, T2`. -/
theorem create_star_expands_all_tables_witness :
    (create sample_env (some sample_db) sample_star_two none).exit =
        Exit.returned RC.SUCCESS ∧
      ∃ s, (create sample_env (some sample_db) sample_star_two none).stmt = some s ∧
        s.projects_ = ((resolved_tables sample_db sample_star_two.relations).map (fun t =>
          ((t.table_meta.fields.drop t.table_meta.sys_field_num).filter
            (fun f => f.visible)).map
            (wildcard_entry t
              ((resolved_tables sample_db sample_star_two.relations).length == 1)))).flatten ∧
        (from_names sample_star_two.relations).map sample_db.find_table =
          (resolved_tables sample_db sample_star_two.relations).map some :=
  ⟨by decide, create_star_expands_all_tables sample_env sample_db sample_star_two none
    ⟨"*", "*", "", none, none⟩ (by decide) rfl rfl rfl⟩

/-- C3: in every successful bind, every entry of the projection list that a
wildcard (`*`, `*.*` or `t.*`) expanded to is a field reference whose display
name is the bare field name when exactly one FROM table was resolved, and
`table_name + "." + field_name` otherwise. -/
theorem create_wildcard_display_names (env : Collab) (db : Db) (sql : SelectSqlNode)
    (stmt0 : Option Stmt)
    (h : (create env (some db) sql stmt0).exit = Exit.returned RC.SUCCESS) :
    ∃ s, (create env (some db) sql stmt0).stmt = some s ∧
      s.projects_ = (sql.project_exprs.reverse.map (resolved_entries db sql.relations)).flatten ∧
      ∀ e ∈ sql.project_exprs, e.is_wildcard = true →
        ∀ x ∈ resolved_entries db sql.relations e,
          ∃ fe, x = Expression.field fe ∧
            fe.name = if (resolved_tables db sql.relations).length = 1 then fe.field_name
              else fe.table_name ++ "." ++ fe.field_name := by
  obtain ⟨s, hs, hp, _⟩ := create_success_projects h
  refine ⟨s, hs, by rw [hp, List.flatMap_def], ?_⟩
  intro e _ hw x hx
  obtain ⟨fe, h1, h2⟩ := entries_of_wildcard_name hw hx
  refine ⟨fe, h1, ?_⟩
  rw [h2]
  by_cases hl : (resolved_tables db sql.relations).length = 1 <;> simp [hl]

/-- C3, at `SELECT * FROM T1, T2`; next to it `SELECT * FROM T1` names the
fields of `T1` `a`, `b`, and `SELECT * FROM T1, T2` names them `T1.a`, `T1.b`. -/
theorem create_wildcard_display_names_witness :
    ((create sample_env (some sample_db) sample_star_two none).exit =
        Exit.returned RC.SUCCESS ∧
      ∃ s, (create sample_env (some sample_db) sample_star_two none).stmt = some s ∧
        s.projects_ = (sample_star_two.project_exprs.reverse.map
          (resolved_entries sample_db sample_star_two.relations)).flatten ∧
        ∀ e ∈ sample_star_two.project_exprs, e.is_wildcard = true →
          ∀ x ∈ resolved_entries sample_db sample_star_two.relations e,
            ∃ fe, x = Expression.field fe ∧
              fe.name = if (resolved_tables sample_db sample_star_two.relations).length = 1
                then fe.field_name else fe.table_name ++ "." ++ fe.field_name) ∧
    (create sample_env (some sample_db) sample_star_one none).stmt.map Stmt.projects_ =
      some [Expression.field ⟨"T1", "a", "a", some sample_t1, some ⟨"a", true⟩⟩,
            Expression.field ⟨"T1", "b", "b", some sample_t1, some ⟨"b", true⟩⟩] ∧
    (create sample_env (some sample_db) sample_star_two none).stmt.map Stmt.projects_ =
      some [Expression.field ⟨"T1", "a", "T1.a", some sample_t1, some ⟨"a", true⟩⟩,
            Expression.field ⟨"T1", "b", "T1.b", some sample_t1, some ⟨"b", true⟩⟩,
            Expression.field ⟨"T2", "c", "T2.c", some sample_t2, some ⟨"c", true⟩⟩] :=
  ⟨⟨by decide, create_wildcard_display_names sample_env sample_db sample_star_two none
    (by decide)⟩, by decide, by decide⟩

/-- C4: for every successful bind over a FROM clause of the two relations
`T1, T2` whose raw projection list is the single scoped wildcard `T1.*`, the
projection list is exactly the visible non-system fields of `T1` in catalog
order, each display-named `T1.field`, and every entry refers to the table of
`T1`; the catalog hands out for `T1` a table of that name. -/
theorem create_scoped_star_two_tables (env : Collab) (db : Db) (sql : SelectSqlNode)
    (stmt0 : Option Stmt) (fe : FieldExpr) (T1 T2 : String) (t1 : Table)
    (h : (create env (some db) sql stmt0).exit = Exit.returned RC.SUCCESS)
    (hfrom : from_names sql.relations = [T1, T2])
    (hp : sql.project_exprs = [Expression.field fe])
    (ht : fe.table_name = T1) (hf : fe.field_name = "*") (hT1 : T1 ≠ "*")
    (hfind : db.find_table T1 = some t1) (hname : t1.name = T1) :
    ∃ s, (create env (some db) sql stmt0).stmt = some s ∧
      s.projects_ =
        ((t1.table_meta.fields.drop t1.table_meta.sys_field_num).filter
          (fun f => f.visible)).map (fun f => Expression.field
            { table_name := T1, field_name := f.name, name := T1 ++ "." ++ f.name,
              table := some t1, field := some f }) ∧
      ∀ x ∈ s.projects_, ∃ fx, x = Expression.field fx ∧ fx.table = some t1 := by
  obtain ⟨s, hs, hpr, hres⟩ := create_success_projects h
  have hlen : (resolved_tables db sql.relations).length = 2 := by
    have := congrArg List.length hres
    simpa [hfrom] using this.symm
  have hscope : scope_find db sql.relations T1 = some t1 := by
    simp [scope_find, hfrom, hfind]
  have hexp : s.projects_ = wildcard_expansion t1 false := by
    rw [hpr, hp]
    simp [resolved_entries, entries_of, ht, hf, hT1, hscope, hlen]
  refine ⟨s, hs, ?_, ?_⟩
  · rw [hexp]
    simp [wildcard_expansion, wildcard_entry, hname]
  · intro x hx
    rw [hexp] at hx
    obtain ⟨fx, h1, h2, _⟩ := wildcard_expansion_name hx
    exact ⟨fx, h1, h2⟩

/-- C4, at `SELECT T1.* FROM T1, T2`. -/
theorem create_scoped_star_two_tables_witness :
    (create sample_env (some sample_db) sample_scoped none).exit = Exit.returned RC.SUCCESS ∧
      ∃ s, (create sample_env (some sample_db) sample_scoped none).stmt = some s ∧
        s.projects_ =
          ((sample_t1.table_meta.fields.drop sample_t1.table_meta.sys_field_num).filter
            (fun f => f.visible)).map (fun f => Expression.field
              { table_name := "T1", field_name := f.name, name := "T1" ++ "." ++ f.name,
                table := some sample_t1, field := some f }) ∧
        ∀ x ∈ s.projects_, ∃ fx, x = Expression.field fx ∧ fx.table = some sample_t1 :=
  ⟨by decide, create_scoped_star_two_tables sample_env sample_db sample_scoped none
    ⟨"T1", "*", "", none, none⟩ "T1" "T2" sample_t1 (by decide) (by decide) rfl rfl rfl
    (by decide) (by decide) rfl⟩

/-- C5: for every bind whose FROM clause resolves and whose raw projection
list is a single scoped wildcard `t.*` where `t` names no relation of the FROM
clause (whatever the catalog holds under `t`), `create` returns
`SCHEMA_FIELD_MISSING` and leaves the output statement as it was; `*` is not a
blank string. -/
theorem create_scoped_star_unknown_table (env : Collab) (db : Db) (sql : SelectSqlNode)
    (stmt0 : Option Stmt) (fe : FieldExpr)
    (hfrom : ∃ jts st, from_loop env db sql.relations [] Locals.init = Run.done jts st)
    (hp : sql.project_exprs = [Expression.field fe])
    (hf : fe.field_name = "*") (ht : fe.table_name ≠ "*")
    (habsent : fe.table_name ∉ from_names sql.relations)
    (hblank : env.is_blank "*" = false) :
    (create env (some db) sql stmt0).exit = Exit.returned RC.SCHEMA_FIELD_MISSING ∧
      (create env (some db) sql stmt0).stmt = stmt0 := by
  obtain ⟨jts, st, hfl⟩ := hfrom
  obtain ⟨ha, _⟩ := from_loop_done _ _ _ _ _ _ (agrees_init db) hfl
  simp only [List.nil_append] at ha
  have hnone : TableMap.find st.table_map fe.table_name = none := by
    rw [ha.2]
    simp [habsent]
  have hfl2 : from_loop env db sql.relations [] ⟨[], [], []⟩ = Run.done jts st := hfl
  simp [create, hfl2, hp, project_loop, project_body, hf, ht, hblank, hnone]

/-- C5, at `SELECT T3.* FROM T1, T2` with `T3` in the catalog. -/
theorem create_scoped_star_unknown_table_witness :
    (∃ jts st, from_loop sample_env sample_db sample_scoped_absent.relations []
        Locals.init = Run.done jts st) ∧
      "T3" ∉ from_names sample_scoped_absent.relations ∧
      sample_db.find_table "T3" = some sample_t3 ∧
      (create sample_env (some sample_db) sample_scoped_absent none).exit =
        Exit.returned RC.SCHEMA_FIELD_MISSING ∧
      (create sample_env (some sample_db) sample_scoped_absent none).stmt = none :=
  ⟨⟨_, _, rfl⟩, by decide, by decide,
    create_scoped_star_unknown_table sample_env sample_db sample_scoped_absent none
      ⟨"T3", "*", "", none, none⟩ ⟨_, _, rfl⟩ rfl rfl (by decide) (by decide) (by decide)⟩

theorem create_from_left {env : Collab} {db : Db} {sql : SelectSqlNode} {e : Exit}
    {st : Locals} (stmt0 : Option Stmt)
    (h : from_loop env db sql.relations [] Locals.init = Run.left e st) :
    create env (some db) sql stmt0 = ⟨e, stmt0, sql, st.calls⟩ := by
  have h2 : from_loop env db sql.relations [] ⟨[], [], []⟩ = Run.left e st := h
  simp [create, h2]

/-- C7 (as amended): when the bind reaches the first FROM entry whose
join-relation-name list and condition-fragment list differ in length, that is
when every earlier entry has been resolved with its join predicates built and
the base relation of the entry is in the catalog, `create` aborts with the
failed `ASSERT` instead of returning a code and leaves the output statement as
it was; the last call of the bind is the catalog lookup of that base relation,
so no predicate is built for a join of this or a later entry and nothing is
done for the projections or for WHERE. -/
theorem create_malformed_join_shape (env : Collab) (db : Db) (sql : SelectSqlNode)
    (stmt0 : Option Stmt) (pre post : List InnerJoinSqlNode) (r : InnerJoinSqlNode)
    (jts : List JoinTables) (st : Locals) (t : Table)
    (hrel : sql.relations = pre ++ r :: post)
    (hpre : from_loop env db pre [] Locals.init = Run.done jts st)
    (hbase : db.find_table r.base_relation = some t)
    (hshape : r.join_relations.length ≠ r.conditions.length) :
    (create env (some db) sql stmt0).exit = Exit.aborted "Select InnerJoin size error!" ∧
      (∀ rc, (create env (some db) sql stmt0).exit ≠ Exit.returned rc) ∧
      (create env (some db) sql stmt0).stmt = stmt0 ∧
      (create env (some db) sql stmt0).calls =
        st.calls ++ [Call.find_table r.base_relation] := by
  have hfl : from_loop env db sql.relations [] Locals.init =
      Run.left (Exit.aborted "Select InnerJoin size error!")
        { tables := st.tables ++ [t],
          table_map := TableMap.insert st.table_map r.base_relation t,
          calls := st.calls ++ [Call.find_table r.base_relation] } := by
    rw [hrel, from_loop_append, hpre]
    simp only
    rw [from_loop_cons_found env r post jts st hbase]
    simp [hshape]
  rw [create_from_left stmt0 hfl]
  exact ⟨rfl, fun rc hc => Exit.noConfusion hc, rfl, rfl⟩

/-- C7, at `FROM T1 INNER JOIN T2 ON c` followed by an entry with base `T3`,
two joined relations and one condition list: the abort comes right after
`find_table "T3"`, the predicate of the first entry having been built. -/
theorem create_malformed_join_shape_witness :
    sample_malformed_second.relations =
        [⟨"T1", ["T2"], [[⟨1⟩]]⟩] ++ ⟨"T3", ["T1", "T2"], [[⟨2⟩]]⟩ :: [] ∧
      sample_db.find_table "T3" = some sample_t3 ∧
      (create sample_env (some sample_db) sample_malformed_second none).exit =
        Exit.aborted "Select InnerJoin size error!" ∧
      (∀ rc, (create sample_env (some sample_db) sample_malformed_second none).exit ≠
        Exit.returned rc) ∧
      (create sample_env (some sample_db) sample_malformed_second none).stmt = none ∧
      (create sample_env (some sample_db) sample_malformed_second none).calls =
        [Call.find_table "T1", Call.find_table "T2",
          Call.filter_create (some sample_t1) [("T1", sample_t1), ("T2", sample_t2)] [⟨1⟩]] ++
        [Call.find_table "T3"] :=
  ⟨rfl, by decide,
    create_malformed_join_shape sample_env sample_db sample_malformed_second none
      [⟨"T1", ["T2"], [[⟨1⟩]]⟩] [] ⟨"T3", ["T1", "T2"], [[⟨2⟩]]⟩
      [⟨some sample_t1, [(some sample_t2, ⟨1⟩)]⟩]
      ⟨[sample_t1, sample_t2], [("T1", sample_t1), ("T2", sample_t2)],
        [Call.find_table "T1", Call.find_table "T2",
          Call.filter_create (some sample_t1) [("T1", sample_t1), ("T2", sample_t2)] [⟨1⟩]]⟩
      sample_t3 rfl (by decide) (by decide) (by decide)⟩

/-- C7 as stated fails.  With a well-formed first entry `T1 INNER JOIN T2 ON c`
and a second entry of two joined relations and one condition list, the abort
comes after the predicate of the first entry has been built; and an entry of
that shape whose base relation `T9` is unknown makes `create` return
`SCHEMA_TABLE_NOT_EXIST` instead of aborting. -/
theorem create_malformed_join_shape_late :
    (∃ r ∈ sample_malformed_second.relations,
        r.join_relations.length = 2 ∧ r.conditions.length = 1) ∧
      ¬ ((create sample_env (some sample_db) sample_malformed_second none).exit =
          Exit.aborted "Select InnerJoin size error!" ∧
        ∀ c ∈ (create sample_env (some sample_db) sample_malformed_second none).calls,
          c.is_predicate = false) ∧
      (create sample_env (some sample_db) sample_malformed_second none).calls =
        [Call.find_table "T1", Call.find_table "T2",
          Call.filter_create (some sample_t1) [("T1", sample_t1), ("T2", sample_t2)] [⟨1⟩],
          Call.find_table "T3"] ∧
      (∃ r ∈ sample_malformed_unknown.relations,
        r.join_relations.length = 2 ∧ r.conditions.length = 1) ∧
      (create sample_env (some sample_db) sample_malformed_unknown none).exit =
        Exit.returned RC.SCHEMA_TABLE_NOT_EXIST := by
  decide

/-- C8 (as amended): the lambda `check_and_collect_tables` fails with
`INVALID_ARGUMENT` exactly for the null name pointer, without consulting the
catalog and leaving table list and table map alone.  For every name string,
the empty one included, it consults the catalog once and never answers
`INVALID_ARGUMENT`; it fails with `SCHEMA_TABLE_NOT_EXIST` exactly when the
catalog lacks the name, and then adds nothing to the table list or the table
map; otherwise it succeeds and appends the handle to the table list.  As
called by `create`, whenever FROM resolution leaves the bind this is by
`SCHEMA_TABLE_NOT_EXIST` right after a catalog lookup that found nothing, by a
failed `ASSERT`, or by the failure code of a join predicate build. -/
theorem check_and_collect_tables_contract (env : Collab) (db : Db) (st : Locals) :
    check_and_collect_tables db none st = (RC.INVALID_ARGUMENT, st) ∧
      (∀ n : String,
        (check_and_collect_tables db (some n) st).1 ≠ RC.INVALID_ARGUMENT ∧
        (check_and_collect_tables db (some n) st).2.calls = st.calls ++ [Call.find_table n] ∧
        ((check_and_collect_tables db (some n) st).1 = RC.SCHEMA_TABLE_NOT_EXIST ↔
          db.find_table n = none) ∧
        (db.find_table n = none →
          (check_and_collect_tables db (some n) st).2.tables = st.tables ∧
          (check_and_collect_tables db (some n) st).2.table_map = st.table_map) ∧
        (∀ t, db.find_table n = some t →
          (check_and_collect_tables db (some n) st).1 = RC.SUCCESS ∧
          (check_and_collect_tables db (some n) st).2.tables = st.tables ++ [t])) ∧
      ∀ (sql : SelectSqlNode) (stmt0 : Option Stmt) (e : Exit) (st1 : Locals),
        from_loop env db sql.relations [] Locals.init = Run.left e st1 →
        (create env (some db) sql stmt0).exit = e ∧
        FromFailure env db e (create env (some db) sql stmt0).calls := by
  refine ⟨rfl, ?_, ?_⟩
  · intro n
    cases hf : db.find_table n with
    | none => simp [cct_missing st hf]
    | some t => simp [cct_found st hf]
  · intro sql stmt0 e st1 hfl
    rw [create_from_left stmt0 hfl]
    exact ⟨rfl, from_loop_left _ _ _ _ _ hfl⟩

/-- C8 as stated fails: for the empty relation name the resolver consults the
catalog and answers `SCHEMA_TABLE_NOT_EXIST`, and so does `create` for
`FROM` the empty name. -/
theorem check_and_collect_tables_empty_name :
    check_and_collect_tables sample_db (some "") Locals.init =
        (RC.SCHEMA_TABLE_NOT_EXIST, ⟨[], [], [Call.find_table ""]⟩) ∧
      (check_and_collect_tables sample_db (some "") Locals.init).1 ≠ RC.INVALID_ARGUMENT ∧
      (create sample_env (some sample_db) sample_empty_name none).exit =
        Exit.returned RC.SCHEMA_TABLE_NOT_EXIST ∧
      (create sample_env (some sample_db) sample_empty_name none).calls =
        [Call.find_table ""] := by
  decide

/-- C9: for every successful bind the statement has one join chain per
top-level FROM entry, in source order; chain `i` has as base table the handle
the catalog returns for `relations[i].base_relation` and one join step per
joined relation, whose tables are, in order, the handles the catalog returns
for `relations[i].join_relations`; none of these handles is null. -/
theorem create_join_chains (env : Collab) (db : Db) (sql : SelectSqlNode)
    (stmt0 : Option Stmt)
    (h : (create env (some db) sql stmt0).exit = Exit.returned RC.SUCCESS) :
    ∃ s, (create env (some db) sql stmt0).stmt = some s ∧
      s.join_tables_.length = sql.relations.length ∧
      s.join_tables_.map (fun jt => (jt.base, jt.steps.map Prod.fst)) =
        sql.relations.map (fun r =>
          (db.find_table r.base_relation, r.join_relations.map db.find_table)) ∧
      (∀ (i : Nat) (jt : JoinTables) (r : InnerJoinSqlNode), s.join_tables_[i]? = some jt →
          sql.relations[i]? = some r →
        jt.base = db.find_table r.base_relation ∧
        jt.steps.length = r.join_relations.length ∧
        ∀ (j : Nat) (n : String), r.join_relations[j]? = some n →
          (jt.steps[j]?).map Prod.fst = some (db.find_table n)) ∧
      ∀ n ∈ from_names sql.relations, ∃ t, db.find_table n = some t := by
  obtain ⟨jts, st, ps, calls, hfl, _, _, hc⟩ := create_success h
  obtain ⟨ha, hs⟩ := from_loop_done _ _ _ _ _ _ (agrees_init db) hfl
  simp only [List.nil_append, List.map_nil] at ha hs
  have hs' : jts.map (fun jt => (jt.base, jt.steps.map Prod.fst)) =
      sql.relations.map (fun r =>
        (db.find_table r.base_relation, r.join_relations.map db.find_table)) := hs
  refine ⟨_, by rw [hc], ?_, hs', ?_, fun n hn => agrees_resolves ha hn⟩
  · have := congrArg List.length hs'
    simpa using this
  · intro i jt r hjt hr
    have hi := congrArg (fun l => l[i]?) hs'
    simp only [List.getElem?_map] at hi
    have hjt' : jts[i]? = some jt := hjt
    rw [hjt', hr] at hi
    simp only [Option.map_some', Option.some.injEq, Prod.mk.injEq] at hi
    obtain ⟨hb, hst⟩ := hi
    refine ⟨hb, ?_, ?_⟩
    · have := congrArg List.length hst
      simpa using this
    · intro j n hj
      have hj2 := congrArg (fun l => l[j]?) hst
      simp only [List.getElem?_map, hj, Option.map_some'] at hj2
      exact hj2

/-- C9, at `SELECT * FROM T1 INNER JOIN T2 ON c, T3 INNER JOIN T1 ON c`: two
chains, `T1` with the step `T2` and `T3` with the step `T1`. -/
theorem create_join_chains_witness :
    ((create sample_env (some sample_db) sample_two_chains none).exit =
        Exit.returned RC.SUCCESS ∧
      ∃ s, (create sample_env (some sample_db) sample_two_chains none).stmt = some s ∧
        s.join_tables_.length = sample_two_chains.relations.length ∧
        s.join_tables_.map (fun jt => (jt.base, jt.steps.map Prod.fst)) =
          sample_two_chains.relations.map (fun r =>
            (sample_db.find_table r.base_relation,
              r.join_relations.map sample_db.find_table)) ∧
        (∀ (i : Nat) (jt : JoinTables) (r : InnerJoinSqlNode), s.join_tables_[i]? = some jt →
          sample_two_chains.relations[i]? = some r →
          jt.base = sample_db.find_table r.base_relation ∧
          jt.steps.length = r.join_relations.length ∧
          ∀ (j : Nat) (n : String), r.join_relations[j]? = some n →
            (jt.steps[j]?).map Prod.fst = some (sample_db.find_table n)) ∧
        ∀ n ∈ from_names sample_two_chains.relations,
          ∃ t, sample_db.find_table n = some t) ∧
    (create sample_env (some sample_db) sample_two_chains none).stmt.map Stmt.join_tables_ =
      some [⟨some sample_t1, [(some sample_t2, ⟨1⟩)]⟩, ⟨some sample_t3, [(some sample_t1, ⟨1⟩)]⟩] :=
  ⟨⟨by decide, create_join_chains sample_env sample_db sample_two_chains none (by decide)⟩,
    by decide⟩

theorem create_stages_done {env : Collab} {d : Db} {sql : SelectSqlNode} {jts : List JoinTables}
    {st : Locals} {ps : List Expression} {calls : List Call} (stmt0 : Option Stmt)
    (hfl : from_loop env d sql.relations [] Locals.init = Run.done jts st)
    (hpl : project_loop env d st.tables st.table_map (st.tables.length == 1)
      sql.project_exprs.reverse [] st.calls = ProjRun.done ps calls) :
    create env (some d) sql stmt0 =
      if (env.filter_create d (default_table_of st.tables) st.table_map sql.conditions).1 ≠
          RC.SUCCESS then
        ⟨Exit.returned
            (env.filter_create d (default_table_of st.tables) st.table_map sql.conditions).1,
          stmt0, { sql with project_exprs := [] },
          calls ++ [Call.filter_create (default_table_of st.tables) st.table_map
            sql.conditions]⟩
      else
        ⟨Exit.returned RC.SUCCESS,
          some ⟨jts, ps,
            (env.filter_create d (default_table_of st.tables) st.table_map sql.conditions).2⟩,
          { sql with project_exprs := [] },
          calls ++ [Call.filter_create (default_table_of st.tables) st.table_map
            sql.conditions]⟩ := by
  have hfl2 : from_loop env d sql.relations [] ⟨[], [], []⟩ = Run.done jts st := hfl
  simp only [create, hfl2, hpl, default_table_of]

theorem create_stages_left {env : Collab} {d : Db} {sql : SelectSqlNode} {jts : List JoinTables}
    {st : Locals} {e : Exit} {calls : List Call} (stmt0 : Option Stmt)
    (hfl : from_loop env d sql.relations [] Locals.init = Run.done jts st)
    (hpl : project_loop env d st.tables st.table_map (st.tables.length == 1)
      sql.project_exprs.reverse [] st.calls = ProjRun.left e calls) :
    create env (some d) sql stmt0 = ⟨e, stmt0, sql, calls⟩ := by
  have hfl2 : from_loop env d sql.relations [] ⟨[], [], []⟩ = Run.done jts st := hfl
  simp only [create, hfl2, hpl]

/-- C10: no partial statement is ever returned.  Whenever `create` does not
return `SUCCESS` the output statement is as it was on entry, and when it
returns `SUCCESS` the output statement is the freshly assembled one.  A null
`db` gives `INVALID_ARGUMENT`; otherwise the first stage that fails, in the
order FROM resolution, projection resolution, WHERE predicate, decides how
`create` ends, whatever the later stages would have done, and a stage that
fails never ends with `SUCCESS`. -/
theorem create_no_partial_statement (env : Collab) (db : Option Db) (sql : SelectSqlNode)
    (stmt0 : Option Stmt) :
    ((create env db sql stmt0).exit ≠ Exit.returned RC.SUCCESS →
        (create env db sql stmt0).stmt = stmt0) ∧
      ((create env db sql stmt0).exit = Exit.returned RC.SUCCESS →
        ∃ s, (create env db sql stmt0).stmt = some s) ∧
      (db = none → (create env db sql stmt0).exit = Exit.returned RC.INVALID_ARGUMENT) ∧
      (∀ d e st, db = some d → from_loop env d sql.relations [] Locals.init = Run.left e st →
        (create env db sql stmt0).exit = e ∧ e ≠ Exit.returned RC.SUCCESS) ∧
      (∀ d jts st e calls, db = some d →
        from_loop env d sql.relations [] Locals.init = Run.done jts st →
        project_loop env d st.tables st.table_map (st.tables.length == 1)
          sql.project_exprs.reverse [] st.calls = ProjRun.left e calls →
        (create env db sql stmt0).exit = e ∧ e ≠ Exit.returned RC.SUCCESS) ∧
      (∀ d jts st ps calls, db = some d →
        from_loop env d sql.relations [] Locals.init = Run.done jts st →
        project_loop env d st.tables st.table_map (st.tables.length == 1)
          sql.project_exprs.reverse [] st.calls = ProjRun.done ps calls →
        (create env db sql stmt0).exit = Exit.returned
          (env.filter_create d (default_table_of st.tables) st.table_map sql.conditions).1 ∧
        ((create env db sql stmt0).exit = Exit.returned RC.SUCCESS →
          (create env db sql stmt0).stmt = some ⟨jts, ps,
            (env.filter_create d (default_table_of st.tables) st.table_map
              sql.conditions).2⟩)) := by
  refine ⟨?_, ?_, ?_, ?_, ?_, ?_⟩
  · intro hne
    cases db with
    | none => rfl
    | some d =>
      cases hfl : from_loop env d sql.relations [] Locals.init with
      | left e st => rw [create_from_left stmt0 hfl]
      | done jts st =>
        cases hpl : project_loop env d st.tables st.table_map (st.tables.length == 1)
            sql.project_exprs.reverse [] st.calls with
        | left e calls => rw [create_stages_left stmt0 hfl hpl]
        | done ps calls =>
          rw [create_stages_done stmt0 hfl hpl] at hne ⊢
          split at hne
          · rename_i hrc
            rw [if_pos hrc]
          · exact absurd rfl hne
  · intro hok
    cases db with
    | none => exact absurd hok (by simp [create])
    | some d =>
      obtain ⟨jts, st, ps, calls, _, _, _, hc⟩ := create_success hok
      exact ⟨_, by rw [hc]⟩
  · intro hd
    subst hd
    rfl
  · intro d e st hd hfl
    subst hd
    rw [create_from_left stmt0 hfl]
    exact ⟨rfl, from_failure_ne_success (from_loop_left _ _ _ _ _ hfl)⟩
  · intro d jts st e calls hd hfl hpl
    subst hd
    rw [create_stages_left stmt0 hfl hpl]
    exact ⟨rfl, project_loop_left _ _ _ _ _ hpl⟩
  · intro d jts st ps calls hd hfl hpl
    subst hd
    rw [create_stages_done stmt0 hfl hpl]
    by_cases hrc : (env.filter_create d (default_table_of st.tables) st.table_map
        sql.conditions).1 = RC.SUCCESS
    · rw [if_neg (not_not.2 hrc)]
      exact ⟨by rw [hrc], fun _ => rfl⟩
    · rw [if_pos hrc]
      refine ⟨rfl, fun hc => ?_⟩
      simp only [Exit.returned.injEq] at hc
      exact absurd hc hrc

theorem calls_ok_blames {env : Collab} {db : Db} {calls : List Call} (h : CallsOk env db calls)
    (x : Exit) : Blames env db x calls := by
  intro c hc e he hne
  exact absurd (h c hc e he) hne

theorem calls_ok_append_from {env : Collab} {db : Db} {calls new : List Call}
    (h : CallsOk env db calls)
    (hn : ∀ c ∈ new, ∀ e, Call.predicate_code env db c = some e → e = RC.SUCCESS) :
    CallsOk env db (calls ++ new) := by
  intro c hc e he
  rcases List.mem_append.1 hc with hc | hc
  · exact h c hc e he
  · exact hn c hc e he

theorem calls_ok_step {env : Collab} {db : Db} {calls : List Call} (n : String)
    {d : Option Table} {tm : TableMap} {cs : List ConditionSqlNode}
    (hok : CallsOk env db calls) (hs : (env.filter_create db d tm cs).1 = RC.SUCCESS) :
    CallsOk env db (calls ++ [Call.find_table n] ++ [Call.filter_create d tm cs]) := by
  intro c hc e he
  simp only [List.mem_append, List.mem_singleton] at hc
  rcases hc with (hc | hc) | hc
  · exact hok c hc e he
  · subst hc
    simp [Call.predicate_code] at he
  · subst hc
    simp only [Call.predicate_code, Option.some.injEq] at he
    rw [← he]
    exact hs

theorem calls_ok_find {env : Collab} {db : Db} {calls : List Call} (n : String)
    (hok : CallsOk env db calls) : CallsOk env db (calls ++ [Call.find_table n]) := by
  apply calls_ok_append_from hok
  intro c hc e he
  simp only [List.mem_singleton] at hc
  subst hc
  simp [Call.predicate_code] at he

theorem join_loop_blames (env : Collab) (db : Db) (b : String)
    (l : List (String × List ConditionSqlNode)) :
    ∀ (jt : JoinTables) (st : Locals), CallsOk env db st.calls →
      (∀ jt' st', join_loop env db b l jt st = Run.done jt' st' → CallsOk env db st'.calls) ∧
      (∀ x st', join_loop env db b l jt st = Run.left x st' → Blames env db x st'.calls) := by
  induction l with
  | nil =>
    intro jt st hok
    constructor
    · intro jt' st' h
      simp only [join_loop, Run.done.injEq] at h
      rw [← h.2]
      exact hok
    · intro x st' h
      simp [join_loop] at h
  | cons p rest ih =>
    obtain ⟨n, conds⟩ := p
    intro jt st hok
    cases hf : db.find_table n with
    | none =>
      rw [join_loop_cons_missing env b conds rest jt st hf]
      constructor
      · intro jt' st' h
        exact Run.noConfusion h
      · intro x st' h
        simp only [Run.left.injEq] at h
        rw [← h.2]
        exact calls_ok_blames (calls_ok_find n hok) _
    | some t =>
      rw [join_loop_cons_found env b conds rest jt st hf]
      simp only
      by_cases hs : (env.filter_create db (TableMap.find (TableMap.insert st.table_map n t) b)
          (TableMap.insert st.table_map n t) conds).1 = RC.SUCCESS
      · rw [if_neg (not_not.2 hs)]
        have hok2 := calls_ok_step n hok hs
        cases h2 : (env.filter_create db (TableMap.find (TableMap.insert st.table_map n t) b)
            (TableMap.insert st.table_map n t) conds).2 with
        | none =>
          simp only
          constructor
          · intro jt' st' h
            exact Run.noConfusion h
          · intro x st' h
            simp only [Run.left.injEq] at h
            rw [← h.2]
            exact calls_ok_blames hok2 _
        | some f =>
          simp only
          exact ih _ _ hok2
      · rw [if_pos hs]
        constructor
        · intro jt' st' h
          exact Run.noConfusion h
        · intro x st' h
          simp only [Run.left.injEq] at h
          rw [← h.1, ← h.2]
          intro c hc e he hfail
          simp only [List.mem_append, List.mem_singleton] at hc
          rcases hc with (hc | hc) | hc
          · exact absurd (hok c hc e he) hfail
          · subst hc
            simp [Call.predicate_code] at he
          · subst hc
            simp only [Call.predicate_code, Option.some.injEq] at he
            rw [he]

theorem from_loop_blames (env : Collab) (db : Db) (rels : List InnerJoinSqlNode) :
    ∀ (jts : List JoinTables) (st : Locals), CallsOk env db st.calls →
      (∀ jts' st', from_loop env db rels jts st = Run.done jts' st' →
        CallsOk env db st'.calls) ∧
      (∀ x st', from_loop env db rels jts st = Run.left x st' → Blames env db x st'.calls) := by
  induction rels with
  | nil =>
    intro jts st hok
    constructor
    · intro jts' st' h
      simp only [from_loop, Run.done.injEq] at h
      rw [← h.2]
      exact hok
    · intro x st' h
      simp [from_loop] at h
  | cons r rest ih =>
    intro jts st hok
    cases hf : db.find_table r.base_relation with
    | none =>
      rw [from_loop_cons_missing env r rest jts st hf]
      constructor
      · intro jts' st' h
        exact Run.noConfusion h
      · intro x st' h
        simp only [Run.left.injEq] at h
        rw [← h.2]
        exact calls_ok_blames (calls_ok_find _ hok) _
    | some t =>
      rw [from_loop_cons_found env r rest jts st hf]
      simp only
      have hok1 : CallsOk env db (st.calls ++ [Call.find_table r.base_relation]) :=
        calls_ok_find r.base_relation hok
      split
      · constructor
        · intro jts' st' h
          exact Run.noConfusion h
        · intro x st' h
          simp only [Run.left.injEq] at h
          rw [← h.2]
          exact calls_ok_blames hok1 _
      · obtain ⟨hjd, hjl⟩ := join_loop_blames env db r.base_relation
          (r.join_relations.zip r.conditions)
          (JoinTables.mk (TableMap.find (TableMap.insert st.table_map r.base_relation t)
            r.base_relation) [])
          { tables := st.tables ++ [t],
            table_map := TableMap.insert st.table_map r.base_relation t,
            calls := st.calls ++ [Call.find_table r.base_relation] } hok1
        split
        · rename_i jt st2 hj
          exact ih _ _ (hjd _ _ hj)
        · rename_i e2 st2 hj
          constructor
          · intro jts' st' h
            exact Run.noConfusion h
          · intro x st' h
            simp only [Run.left.injEq] at h
            rw [← h.1, ← h.2]
            exact hjl _ _ hj

theorem check_and_keep_calls (env : Collab) (db : Db) (tables : List Table) (tm : TableMap)
    (e : Expression) (ps : List Expression) (calls : List Call) :
    (check_and_keep env db tables tm e ps calls).calls = calls ++ [Call.check_field e] := by
  unfold check_and_keep
  simp only
  split <;> rfl

theorem project_body_calls (env : Collab) (db : Db) (tables : List Table) (tm : TableMap)
    (s : Bool) (e : Expression) (ps : List Expression) (calls : List Call) :
    ∃ new, (project_body env db tables tm s e ps calls).calls = calls ++ new ∧
      ∀ c ∈ new, c.is_projection = true := by
  have hck : ∀ e : Expression, ∃ new,
      (check_and_keep env db tables tm e ps calls).calls = calls ++ new ∧
      ∀ c ∈ new, c.is_projection = true := by
    intro e
    exact ⟨[Call.check_field e], check_and_keep_calls _ _ _ _ _ _ _,
      by simp [Call.is_projection]⟩
  cases e with
  | field fe =>
    simp only [project_body]
    split
    · exact ⟨[], by simp [ProjRun.calls], by simp⟩
    · split
      · refine ⟨tables.map Call.wildcard_fields, rfl, ?_⟩
        intro c hc
        obtain ⟨t, _, ht⟩ := List.mem_map.1 hc
        rw [← ht]
        rfl
      · split
        · split
          · exact ⟨[], by simp [ProjRun.calls], by simp⟩
          · split
            · exact ⟨[], by simp [ProjRun.calls], by simp⟩
            · rename_i t hfind
              exact ⟨[Call.wildcard_fields t], rfl, by simp [Call.is_projection]⟩
        · exact hck _
  | star tag =>
    simp only [project_body]
    exact hck _
  | other tag =>
    simp only [project_body]
    exact hck _

theorem project_loop_calls (env : Collab) (db : Db) (tables : List Table) (tm : TableMap)
    (s : Bool) (exprs : List Expression) :
    ∀ (ps : List Expression) (calls : List Call),
      ∃ new, (project_loop env db tables tm s exprs ps calls).calls = calls ++ new ∧
        ∀ c ∈ new, c.is_projection = true := by
  induction exprs with
  | nil =>
    intro ps calls
    exact ⟨[], by simp [project_loop, ProjRun.calls], by simp⟩
  | cons e rest ih =>
    intro ps calls
    obtain ⟨new1, h1, h2⟩ := project_body_calls env db tables tm s e ps calls
    simp only [project_loop]
    split
    · rename_i ps1 calls1 hb
      rw [hb] at h1
      simp only [ProjRun.calls] at h1
      obtain ⟨new2, h3, h4⟩ := ih ps1 calls1
      refine ⟨new1 ++ new2, ?_, ?_⟩
      · rw [h3, h1, List.append_assoc]
      · intro c hc
        rcases List.mem_append.1 hc with hc | hc
        · exact h2 c hc
        · exact h4 c hc
    · rename_i x calls1 hb
      rw [hb] at h1
      exact ⟨new1, h1, h2⟩

theorem calls_ok_append_projection {env : Collab} {db : Db} {calls new : List Call}
    (h : CallsOk env db calls) (hn : ∀ c ∈ new, c.is_projection = true) :
    CallsOk env db (calls ++ new) := by
  apply calls_ok_append_from h
  intro c hc e he
  have hp := hn c hc
  cases c <;> simp [Call.is_projection, Call.predicate_code] at hp he

theorem calls_ok_nil (env : Collab) (db : Db) : CallsOk env db [] := by
  intro c hc
  simp at hc

/-- C11: whenever a build of the predicate builder during a bind fails with
code `e`, be it for the condition fragments of a join or for the top-level
WHERE fragments, `create` returns exactly `e` and leaves the output statement
as it was. -/
theorem create_predicate_failure (env : Collab) (db : Db) (sql : SelectSqlNode)
    (stmt0 : Option Stmt) (d : Option Table) (tm : TableMap) (cs : List ConditionSqlNode)
    (hc : Call.filter_create d tm cs ∈ (create env (some db) sql stmt0).calls)
    (hfail : (env.filter_create db d tm cs).1 ≠ RC.SUCCESS) :
    (create env (some db) sql stmt0).exit = Exit.returned (env.filter_create db d tm cs).1 ∧
      (create env (some db) sql stmt0).stmt = stmt0 := by
  obtain ⟨hfd, hfl⟩ := from_loop_blames env db sql.relations [] Locals.init
    (calls_ok_nil env db)
  cases hfrom : from_loop env db sql.relations [] Locals.init with
  | left x st =>
    rw [create_from_left stmt0 hfrom] at hc ⊢
    exact ⟨hfl x st hfrom _ hc _ rfl hfail, rfl⟩
  | done jts st =>
    have hok := hfd jts st hfrom
    obtain ⟨new, hn1, hn2⟩ := project_loop_calls env db st.tables st.table_map
      (st.tables.length == 1) sql.project_exprs.reverse [] st.calls
    cases hpl : project_loop env db st.tables st.table_map (st.tables.length == 1)
        sql.project_exprs.reverse [] st.calls with
    | left x calls =>
      rw [hpl] at hn1
      simp only [ProjRun.calls] at hn1
      rw [create_stages_left stmt0 hfrom hpl] at hc ⊢
      have hc2 : Call.filter_create d tm cs ∈ calls := hc
      rw [hn1] at hc2
      exact absurd (calls_ok_append_projection hok hn2 _ hc2 _ rfl) hfail
    | done ps calls =>
      rw [hpl] at hn1
      simp only [ProjRun.calls] at hn1
      have hok2 : CallsOk env db calls := by
        rw [hn1]
        exact calls_ok_append_projection hok hn2
      rw [create_stages_done stmt0 hfrom hpl] at hc ⊢
      split at hc
      · rename_i hw
        rw [if_pos hw]
        have hc2 : Call.filter_create d tm cs ∈ calls ++
            [Call.filter_create (default_table_of st.tables) st.table_map sql.conditions] := hc
        rcases List.mem_append.1 hc2 with hc3 | hc3
        · exact absurd (hok2 _ hc3 _ rfl) hfail
        · simp only [List.mem_singleton, Call.filter_create.injEq] at hc3
          obtain ⟨h1, h2, h3⟩ := hc3
          subst h1 h2 h3
          exact ⟨rfl, rfl⟩
      · rename_i hw
        have hc2 : Call.filter_create d tm cs ∈ calls ++
            [Call.filter_create (default_table_of st.tables) st.table_map sql.conditions] := hc
        rcases List.mem_append.1 hc2 with hc3 | hc3
        · exact absurd (hok2 _ hc3 _ rfl) hfail
        · simp only [List.mem_singleton, Call.filter_create.injEq] at hc3
          obtain ⟨h1, h2, h3⟩ := hc3
          subst h1 h2 h3
          exact absurd hfail hw

/-- C11, at `FROM T1 INNER JOIN T2 ON c WHERE c` and at `FROM T1 WHERE c` with
a predicate builder that answers `OTHER 7` to every non-empty fragment list:
the failing build is that of the join in the first bind and that of WHERE in
the second, and both binds return `OTHER 7`. -/
theorem create_predicate_failure_witness :
    ((create strict_env (some sample_db) sample_join_where none).calls =
        [Call.find_table "T1", Call.find_table "T2",
          Call.filter_create (some sample_t1) [("T1", sample_t1), ("T2", sample_t2)] [⟨1⟩]] ∧
      (create strict_env (some sample_db) sample_join_where none).exit =
        Exit.returned (strict_env.filter_create sample_db (some sample_t1)
          [("T1", sample_t1), ("T2", sample_t2)] [⟨1⟩]).1 ∧
      (create strict_env (some sample_db) sample_join_where none).stmt = none) ∧
    ((create strict_env (some sample_db) sample_where none).exit =
        Exit.returned (strict_env.filter_create sample_db (some sample_t1)
          [("T1", sample_t1)] [⟨3⟩]).1 ∧
      (create strict_env (some sample_db) sample_where none).stmt = none) ∧
    (strict_env.filter_create sample_db (some sample_t1) [("T1", sample_t1)] [⟨3⟩]).1 =
      RC.OTHER 7 :=
  ⟨⟨by decide, create_predicate_failure strict_env sample_db sample_join_where none
      (some sample_t1) [("T1", sample_t1), ("T2", sample_t2)] [⟨1⟩] (by decide) (by decide)⟩,
    create_predicate_failure strict_env sample_db sample_where none
      (some sample_t1) [("T1", sample_t1)] [⟨3⟩] (by decide) (by decide),
    by decide⟩

theorem wildcard_expansion_created {t : Table} {s : Bool} {x : Expression}
    (h : x ∈ wildcard_expansion t s) :
    ∃ f ∈ t.table_meta.fields.drop t.table_meta.sys_field_num,
      f.visible = true ∧ x = wildcard_entry t s f := by
  unfold wildcard_expansion at h
  obtain ⟨f, hf, hx⟩ := List.mem_map.1 h
  obtain ⟨hf1, hf2⟩ := List.mem_filter.1 hf
  exact ⟨f, hf1, hf2, hx.symm⟩

theorem scope_find_resolved {db : Db} {rels : List InnerJoinSqlNode} {n : String} {t : Table}
    (h : scope_find db rels n = some t) : t ∈ resolved_tables db rels := by
  unfold scope_find at h
  split at h
  · rename_i hn
    exact List.mem_filterMap.2 ⟨n, hn, h⟩
  · exact Option.noConfusion h

theorem resolved_entries_wildcard_created {db : Db} {rels : List InnerJoinSqlNode}
    {e x : Expression} (he : e.is_wildcard = true) (h : x ∈ resolved_entries db rels e) :
    ∃ t ∈ resolved_tables db rels,
      ∃ f ∈ t.table_meta.fields.drop t.table_meta.sys_field_num,
        f.visible = true ∧
        x = wildcard_entry t ((resolved_tables db rels).length == 1) f := by
  cases e with
  | field fe =>
    have hf : fe.field_name = "*" := by simpa [Expression.is_wildcard] using he
    simp only [resolved_entries, entries_of, hf, if_true] at h
    split at h
    · obtain ⟨t, ht, hx⟩ := List.mem_flatMap.1 h
      exact ⟨t, ht, wildcard_expansion_created hx⟩
    · split at h
      · rename_i t hfind
        exact ⟨t, scope_find_resolved hfind, wildcard_expansion_created h⟩
      · simp at h
  | star tag => simp [Expression.is_wildcard] at he
  | other tag => simp [Expression.is_wildcard] at he

/-- C13 (as amended): in every successful bind no raw field reference whose
field part is `*` is carried over: the projection list is made, last raw
expression first, of the raw nodes that are not such wildcards, each kept as
it is, and of the field references newly created for the visible non-system
fields of resolved tables, which stand in for the wildcards.  A node of any
other kind, a Star-kind node included, is not a wildcard to the binder and is
kept. -/
theorem create_wildcards_replaced (env : Collab) (db : Db) (sql : SelectSqlNode)
    (stmt0 : Option Stmt)
    (h : (create env (some db) sql stmt0).exit = Exit.returned RC.SUCCESS) :
    ∃ s, (create env (some db) sql stmt0).stmt = some s ∧
      s.projects_ = (sql.project_exprs.reverse.map (resolved_entries db sql.relations)).flatten ∧
      (∀ e ∈ sql.project_exprs, e.is_wildcard = true →
        ∀ x ∈ resolved_entries db sql.relations e,
          ∃ t ∈ resolved_tables db sql.relations,
            ∃ f ∈ t.table_meta.fields.drop t.table_meta.sys_field_num,
              f.visible = true ∧
              x = wildcard_entry t ((resolved_tables db sql.relations).length == 1) f) ∧
      (∀ e ∈ sql.project_exprs, e.is_wildcard = false →
        resolved_entries db sql.relations e = [e] ∧ e ∈ s.projects_) ∧
      (∀ x ∈ s.projects_,
        (x ∈ sql.project_exprs ∧ x.is_wildcard = false) ∨
        ∃ t ∈ resolved_tables db sql.relations,
          ∃ f ∈ t.table_meta.fields.drop t.table_meta.sys_field_num,
            f.visible = true ∧
            x = wildcard_entry t ((resolved_tables db sql.relations).length == 1) f) := by
  obtain ⟨s, hs, hp, _⟩ := create_success_projects h
  refine ⟨s, hs, by rw [hp, List.flatMap_def], ?_, ?_, ?_⟩
  · intro e _ he x hx
    exact resolved_entries_wildcard_created he hx
  · intro e he hw
    have h1 : resolved_entries db sql.relations e = [e] := entries_of_not_wildcard _ _ _ hw
    refine ⟨h1, ?_⟩
    rw [hp]
    exact List.mem_flatMap.2 ⟨e, List.mem_reverse.2 he, by rw [h1]; exact List.mem_singleton.2 rfl⟩
  · intro x hx
    rw [hp] at hx
    obtain ⟨e, he, hxe⟩ := List.mem_flatMap.1 hx
    have he2 : e ∈ sql.project_exprs := List.mem_reverse.1 he
    cases hw : e.is_wildcard with
    | false =>
      have h1 : resolved_entries db sql.relations e = [e] := entries_of_not_wildcard _ _ _ hw
      rw [h1] at hxe
      have hxe2 : x = e := List.mem_singleton.1 hxe
      left
      rw [hxe2]
      exact ⟨he2, hw⟩
    | true =>
      right
      exact resolved_entries_wildcard_created hw hxe

/-- C13, at `SELECT e0, T1.* FROM T1, T2`. -/
theorem create_wildcards_replaced_witness :
    (create sample_env (some sample_db) sample_mixed none).exit = Exit.returned RC.SUCCESS ∧
    (create sample_env (some sample_db) sample_mixed none).stmt.map Stmt.projects_ =
      some [Expression.field ⟨"T1", "a", "T1.a", some sample_t1, some ⟨"a", true⟩⟩,
            Expression.field ⟨"T1", "b", "T1.b", some sample_t1, some ⟨"b", true⟩⟩,
            Expression.other 0] ∧
    ∃ s, (create sample_env (some sample_db) sample_mixed none).stmt = some s ∧
      s.projects_ = (sample_mixed.project_exprs.reverse.map
        (resolved_entries sample_db sample_mixed.relations)).flatten ∧
      (∀ e ∈ sample_mixed.project_exprs, e.is_wildcard = true →
        ∀ x ∈ resolved_entries sample_db sample_mixed.relations e,
          ∃ t ∈ resolved_tables sample_db sample_mixed.relations,
            ∃ f ∈ t.table_meta.fields.drop t.table_meta.sys_field_num,
              f.visible = true ∧
              x = wildcard_entry t
                ((resolved_tables sample_db sample_mixed.relations).length == 1) f) ∧
      (∀ e ∈ sample_mixed.project_exprs, e.is_wildcard = false →
        resolved_entries sample_db sample_mixed.relations e = [e] ∧ e ∈ s.projects_) ∧
      (∀ x ∈ s.projects_,
        (x ∈ sample_mixed.project_exprs ∧ x.is_wildcard = false) ∨
        ∃ t ∈ resolved_tables sample_db sample_mixed.relations,
          ∃ f ∈ t.table_meta.fields.drop t.table_meta.sys_field_num,
            f.visible = true ∧
            x = wildcard_entry t
              ((resolved_tables sample_db sample_mixed.relations).length == 1) f) :=
  ⟨by decide, by decide,
    create_wildcards_replaced sample_env sample_db sample_mixed none (by decide)⟩

/-- C13 as stated fails: a Star-kind node among the raw projections of a
successful bind goes through `check_field` like any node that is not a field
reference and is itself an entry of the projection list. -/
theorem create_star_node_survives :
    sample_star_node.project_exprs = [Expression.star 0] ∧
      (Expression.star 0).type = ExprType.STAR ∧
      (create sample_env (some sample_db) sample_star_node none).exit =
        Exit.returned RC.SUCCESS ∧
      (create sample_env (some sample_db) sample_star_node none).stmt.map Stmt.projects_ =
        some [Expression.star 0] ∧
      (create sample_env (some sample_db) sample_star_node none).calls =
        [Call.find_table "T1", Call.check_field (Expression.star 0),
          Call.filter_create (some sample_t1) [("T1", sample_t1)] []] := by
  decide

theorem filterMap_range_from {α : Type} (g : Nat → Option α) (k : Nat) :
    ∀ n : Nat, (List.range n).filterMap (fun i => if k ≤ i then g i else none) =
      (List.range' k (n - k)).filterMap g := by
  intro n
  induction n with
  | zero => simp
  | succ n ih =>
    rw [List.range_succ, List.filterMap_append, ih]
    by_cases hk : k ≤ n
    · have h1 : n + 1 - k = (n - k) + 1 := by omega
      rw [h1, List.range'_concat, List.filterMap_append]
      have h3 : k + 1 * (n - k) = n := by omega
      simp only [h3, List.filterMap_cons, List.filterMap_nil, hk, if_true]
    · have h1 : n + 1 - k = 0 := by omega
      have h2 : n - k = 0 := by omega
      simp [h1, h2, hk]

/-- C14: for every table, with `k` its `sys_field_num`, and every prior
content of the projection list, `wildcard_fields` leaves the existing entries
in place and appends, in increasing index order, exactly one field reference
for each index `i` with `k <= i < field_num` whose field is visible; an index
below `k` contributes nothing whatever its visibility flag, and neither does an
invisible field.  What is appended is thus the list of the visible fields
among those left after dropping the first `k`. -/
theorem wildcard_fields_appends (table : Table) (projects : List Expression)
    (is_single_table : Bool) :
    wildcard_fields table projects is_single_table =
        projects ++ (List.range table.table_meta.field_num).filterMap (fun i =>
          if table.table_meta.sys_field_num ≤ i then
            (table.table_meta.fields[i]?).bind (fun f =>
              if f.visible then some (wildcard_entry table is_single_table f) else none)
          else none) ∧
      wildcard_fields table projects is_single_table =
        projects ++ ((table.table_meta.fields.drop table.table_meta.sys_field_num).filter
          (fun f => f.visible)).map (wildcard_entry table is_single_table) := by
  refine ⟨?_, wildcard_fields_eq table projects is_single_table⟩
  rw [filterMap_range_from]
  unfold wildcard_fields
  rw [foldl_wildcard_body]
  congr 1
  apply List.filterMap_congr
  intro i _
  unfold wildcard_at TableMeta.field
  cases table.table_meta.fields[i]? <;> rfl

/-- C15 (as amended): when a bind of a raw SELECT node succeeds, it leaves the
node with an empty projection list and otherwise unchanged; a second bind of
the node as the first bind left it, against the same catalog, succeeds as well
and gives a statement with the same join chains and the same filter, but with
an empty projection list. -/
theorem create_twice (env : Collab) (db : Db) (sql : SelectSqlNode) (stmt0 stmt1 : Option Stmt)
    (h : (create env (some db) sql stmt0).exit = Exit.returned RC.SUCCESS) :
    (create env (some db) sql stmt0).select_sql = { sql with project_exprs := [] } ∧
      (create env (some db) (create env (some db) sql stmt0).select_sql stmt1).exit =
        Exit.returned RC.SUCCESS ∧
      ∃ s1 s2, (create env (some db) sql stmt0).stmt = some s1 ∧
        (create env (some db) (create env (some db) sql stmt0).select_sql stmt1).stmt =
          some s2 ∧
        s2.join_tables_ = s1.join_tables_ ∧ s2.filter_stmt_ = s1.filter_stmt_ ∧
        s2.projects_ = [] := by
  obtain ⟨jts, st, ps, calls, hfl, hpl, hrc, hc⟩ := create_success h
  have hfl2 : from_loop env db ({ sql with project_exprs := [] } : SelectSqlNode).relations []
      Locals.init = Run.done jts st := hfl
  have hpl2 : project_loop env db st.tables st.table_map (st.tables.length == 1)
      ({ sql with project_exprs := [] } : SelectSqlNode).project_exprs.reverse [] st.calls =
      ProjRun.done [] st.calls := rfl
  have h2 := create_stages_done stmt1 hfl2 hpl2
  have hrc2 : ¬ (env.filter_create db (default_table_of st.tables) st.table_map
      ({ sql with project_exprs := [] } : SelectSqlNode).conditions).1 ≠ RC.SUCCESS :=
    not_not.2 hrc
  rw [if_neg hrc2] at h2
  have e1 : (create env (some db) sql stmt0).select_sql = { sql with project_exprs := [] } := by
    rw [hc]
  have e0 : (create env (some db) sql stmt0).stmt = some ⟨jts, ps,
      (env.filter_create db (default_table_of st.tables) st.table_map sql.conditions).2⟩ := by
    rw [hc]
  rw [e1, h2, e0]
  exact ⟨rfl, rfl, _, _, rfl, rfl, rfl, rfl, rfl⟩

/-- C15, at `SELECT * FROM T1 INNER JOIN T2 ON c WHERE c`: the first bind
gives three projections, the second none. -/
theorem create_twice_witness :
    (create sample_env (some sample_db) sample_join_where none).exit =
        Exit.returned RC.SUCCESS ∧
      ((create sample_env (some sample_db) sample_join_where none).select_sql =
          { sample_join_where with project_exprs := [] } ∧
        (create sample_env (some sample_db)
          (create sample_env (some sample_db) sample_join_where none).select_sql none).exit =
          Exit.returned RC.SUCCESS ∧
        ∃ s1 s2, (create sample_env (some sample_db) sample_join_where none).stmt = some s1 ∧
          (create sample_env (some sample_db)
            (create sample_env (some sample_db) sample_join_where none).select_sql none).stmt =
            some s2 ∧
          s2.join_tables_ = s1.join_tables_ ∧ s2.filter_stmt_ = s1.filter_stmt_ ∧
          s2.projects_ = []) :=
  ⟨by decide, create_twice sample_env sample_db sample_join_where none none (by decide)⟩

/-- C15 as stated fails: `SELECT * FROM T1` binds to the projections `a`, `b`;
the bind empties the projection list of the raw node, and binding the node
again gives a statement without projections. -/
theorem create_twice_projections_differ :
    (create sample_env (some sample_db) sample_star_one none).exit =
        Exit.returned RC.SUCCESS ∧
      (create sample_env (some sample_db)
        (create sample_env (some sample_db) sample_star_one none).select_sql none).exit =
        Exit.returned RC.SUCCESS ∧
      (create sample_env (some sample_db) sample_star_one none).stmt.map Stmt.projects_ =
        some [Expression.field ⟨"T1", "a", "a", some sample_t1, some ⟨"a", true⟩⟩,
              Expression.field ⟨"T1", "b", "b", some sample_t1, some ⟨"b", true⟩⟩] ∧
      (create sample_env (some sample_db)
        (create sample_env (some sample_db) sample_star_one none).select_sql none).stmt.map
          Stmt.projects_ = some [] ∧
      (create sample_env (some sample_db) sample_star_one none).stmt.map Stmt.projects_ ≠
        (create sample_env (some sample_db)
          (create sample_env (some sample_db) sample_star_one none).select_sql none).stmt.map
            Stmt.projects_ := by
  decide

theorem map_of_snoc_found {db : Db} {n : String} {t : Table} (ns : List String)
    (h : db.find_table n = some t) :
    map_of db (ns ++ [n]) = TableMap.insert (map_of db ns) n t := by
  simp [map_of, List.foldl_append, h]

theorem map_of_snoc_missing {db : Db} {n : String} (ns : List String)
    (h : db.find_table n = none) : map_of db (ns ++ [n]) = map_of db ns := by
  simp [map_of, List.foldl_append, h]

theorem map_of_find (db : Db) (ns : List String) (x : String) :
    TableMap.find (map_of db ns) x = if x ∈ ns then db.find_table x else none := by
  induction ns using List.reverseRecOn with
  | nil => simp [map_of, find_nil]
  | append_singleton l a ih =>
    cases ha : db.find_table a with
    | none =>
      rw [map_of_snoc_missing l ha, ih]
      by_cases hx : x ∈ l
      · simp [hx]
      · by_cases hxa : x = a
        · subst hxa
          simp [hx, ha]
        · simp [hx, hxa]
    | some t =>
      rw [map_of_snoc_found l ha, find_insert, ih]
      by_cases hx : x ∈ l
      · cases hfx : db.find_table x with
        | some y => simp [hx, hfx]
        | none =>
          by_cases hxa : a = x
          · subst hxa
            rw [ha] at hfx
            exact Option.noConfusion hfx
          · simp [hx, hfx, hxa]
      · by_cases hxa : a = x
        · subst hxa
          simp [hx, ha]
        · have hxa2 : ¬ x = a := fun e => hxa e.symm
          simp [hx, hxa, hxa2]

theorem filter_predicate_step (calls : List Call) (n : String) (d : Option Table)
    (tm : TableMap) (cs : List ConditionSqlNode) :
    (calls ++ [Call.find_table n] ++ [Call.filter_create d tm cs]).filter Call.is_predicate =
      calls.filter Call.is_predicate ++ [Call.filter_create d tm cs] := by
  simp [List.filter_append, List.filter_cons, Call.is_predicate]

theorem filter_predicate_find (calls : List Call) (n : String) :
    (calls ++ [Call.find_table n]).filter Call.is_predicate =
      calls.filter Call.is_predicate := by
  simp [List.filter_append, List.filter_cons, Call.is_predicate]

theorem join_loop_trace {env : Collab} {db : Db} {b : String}
    (l : List (String × List ConditionSqlNode)) :
    ∀ (jt : JoinTables) (st : Locals) (jt' : JoinTables) (st' : Locals) (ns : List String),
      b ∈ ns → st.table_map = map_of db ns →
      join_loop env db b l jt st = Run.done jt' st' →
      st'.table_map = map_of db (ns ++ l.map Prod.fst) ∧
        st'.calls.filter Call.is_predicate =
          st.calls.filter Call.is_predicate ++ join_calls_of db b ns l ∧
        jt'.steps.map (fun p => some p.2) =
          jt.steps.map (fun p => some p.2) ++ join_preds_of env db b ns l := by
  induction l with
  | nil =>
    intro jt st jt' st' ns hb hm h
    simp only [join_loop, Run.done.injEq] at h
    obtain ⟨h1, h2⟩ := h
    subst h1 h2
    simp [join_calls_of, join_preds_of, hm]
  | cons p rest ih =>
    obtain ⟨n, conds⟩ := p
    intro jt st jt' st' ns hb hm h
    cases hf : db.find_table n with
    | none =>
      rw [join_loop_cons_missing env b conds rest jt st hf] at h
      exact Run.noConfusion h
    | some t =>
      rw [join_loop_cons_found env b conds rest jt st hf] at h
      simp only at h
      have hmap : TableMap.insert st.table_map n t = map_of db (ns ++ [n]) := by
        rw [hm, map_of_snoc_found ns hf]
      have hdef : TableMap.find (map_of db (ns ++ [n])) b = db.find_table b := by
        rw [map_of_find]
        simp [hb]
      rw [hmap, hdef] at h
      split at h
      · exact Run.noConfusion h
      · split at h
        · exact Run.noConfusion h
        · rename_i f hr2
          obtain ⟨h1, h2, h3⟩ := ih _ _ _ _ (ns ++ [n]) (List.mem_append_left _ hb) rfl h
          refine ⟨?_, ?_, ?_⟩
          · rw [h1]
            simp
          · rw [h2, filter_predicate_step]
            simp [join_calls_of]
          · rw [h3]
            simp [JoinTables.push_join_table, join_preds_of, hr2]

theorem from_loop_trace {env : Collab} {db : Db} (rels : List InnerJoinSqlNode) :
    ∀ (jts : List JoinTables) (st : Locals) (jts' : List JoinTables) (st' : Locals)
      (ns : List String),
      st.table_map = map_of db ns →
      from_loop env db rels jts st = Run.done jts' st' →
      st'.table_map = map_of db (ns ++ from_names rels) ∧
        st'.calls.filter Call.is_predicate =
          st.calls.filter Call.is_predicate ++ from_join_calls db ns rels ∧
        jts'.map (fun jt => jt.steps.map (fun p => some p.2)) =
          jts.map (fun jt => jt.steps.map (fun p => some p.2)) ++
            from_join_preds env db ns rels := by
  induction rels with
  | nil =>
    intro jts st jts' st' ns hm h
    simp only [from_loop, Run.done.injEq] at h
    obtain ⟨h1, h2⟩ := h
    subst h1 h2
    simp [from_names, from_join_calls, from_join_preds, hm]
  | cons r rest ih =>
    intro jts st jts' st' ns hm h
    cases hf : db.find_table r.base_relation with
    | none =>
      rw [from_loop_cons_missing env r rest jts st hf] at h
      exact Run.noConfusion h
    | some t =>
      rw [from_loop_cons_found env r rest jts st hf] at h
      simp only at h
      split at h
      · exact Run.noConfusion h
      · rename_i hlen
        have hlen2 : r.join_relations.length = r.conditions.length := by
          by_contra hc
          exact hlen hc
        have hz : (r.join_relations.zip r.conditions).map Prod.fst = r.join_relations :=
          List.map_fst_zip _ _ (le_of_eq hlen2)
        split at h
        · rename_i jt st2 hj
          have hmap : TableMap.insert st.table_map r.base_relation t =
              map_of db (ns ++ [r.base_relation]) := by
            rw [hm, map_of_snoc_found ns hf]
          obtain ⟨h1, h2, h3⟩ := join_loop_trace _ _ _ _ _ (ns ++ [r.base_relation])
            (List.mem_append_right _ (List.mem_singleton.2 rfl)) hmap hj
          rw [hz] at h1
          have h1' : st2.table_map = map_of db (ns ++ r.base_relation :: r.join_relations) := by
            rw [h1]
            simp
          obtain ⟨g1, g2, g3⟩ := ih _ _ _ _ _ h1' h
          refine ⟨?_, ?_, ?_⟩
          · rw [g1]
            simp [from_names]
          · rw [g2, h2, filter_predicate_find]
            simp [from_join_calls]
          · rw [g3]
            simp only [List.map_nil, List.nil_append] at h3
            simp [from_join_preds, h3]
        · exact Run.noConfusion h

theorem filter_predicate_projection {new : List Call}
    (h : ∀ c ∈ new, c.is_projection = true) : new.filter Call.is_predicate = [] := by
  apply List.filter_eq_nil_iff.2
  intro c hc
  have hp := h c hc
  cases c <;> simp [Call.is_projection, Call.is_predicate] at hp ⊢

theorem from_loop_init_state {env : Collab} {db : Db} {rels : List InnerJoinSqlNode}
    {jts : List JoinTables} {st : Locals}
    (hfl : from_loop env db rels [] Locals.init = Run.done jts st) :
    st.tables = resolved_tables db rels ∧ st.table_map = map_of db (from_names rels) ∧
      st.calls.filter Call.is_predicate = from_join_calls db [] rels ∧
      jts.map (fun jt => jt.steps.map (fun p => some p.2)) = from_join_preds env db [] rels := by
  obtain ⟨ha, _⟩ := from_loop_done _ _ _ _ _ _ (agrees_init db) hfl
  simp only [List.nil_append] at ha
  obtain ⟨h1, h2, h3⟩ := from_loop_trace rels [] Locals.init jts st [] rfl hfl
  simp only [List.nil_append, List.map_nil] at h1 h3
  refine ⟨agrees_tables ha, h1, ?_, h3⟩
  rw [h2]
  simp [Locals.init]

theorem join_calls_of_append (db : Db) (b : String)
    (l1 l2 : List (String × List ConditionSqlNode)) :
    ∀ ns : List String, join_calls_of db b ns (l1 ++ l2) =
      join_calls_of db b ns l1 ++ join_calls_of db b (ns ++ l1.map Prod.fst) l2 := by
  induction l1 with
  | nil => intro ns; simp [join_calls_of]
  | cons p rest ih =>
    obtain ⟨n, cs⟩ := p
    intro ns
    simp [join_calls_of, ih]

theorem join_preds_of_append (env : Collab) (db : Db) (b : String)
    (l1 l2 : List (String × List ConditionSqlNode)) :
    ∀ ns : List String, join_preds_of env db b ns (l1 ++ l2) =
      join_preds_of env db b ns l1 ++ join_preds_of env db b (ns ++ l1.map Prod.fst) l2 := by
  induction l1 with
  | nil => intro ns; simp [join_preds_of]
  | cons p rest ih =>
    obtain ⟨n, cs⟩ := p
    intro ns
    simp [join_preds_of, ih]

theorem join_preds_of_length (env : Collab) (db : Db) (b : String)
    (l : List (String × List ConditionSqlNode)) :
    ∀ ns : List String, (join_preds_of env db b ns l).length = l.length := by
  induction l with
  | nil => intro ns; rfl
  | cons p rest ih =>
    obtain ⟨n, cs⟩ := p
    intro ns
    simp [join_preds_of, ih]

theorem from_join_calls_append (db : Db) (pre post : List InnerJoinSqlNode) :
    ∀ ns : List String, from_join_calls db ns (pre ++ post) =
      from_join_calls db ns pre ++ from_join_calls db (ns ++ from_names pre) post := by
  induction pre with
  | nil => intro ns; simp [from_join_calls, from_names]
  | cons r rest ih =>
    intro ns
    simp [from_join_calls, from_names, ih]

theorem from_join_preds_append (env : Collab) (db : Db) (pre post : List InnerJoinSqlNode) :
    ∀ ns : List String, from_join_preds env db ns (pre ++ post) =
      from_join_preds env db ns pre ++ from_join_preds env db (ns ++ from_names pre) post := by
  induction pre with
  | nil => intro ns; simp [from_join_preds, from_names]
  | cons r rest ih =>
    intro ns
    simp [from_join_preds, from_names, ih]

theorem from_join_preds_length (env : Collab) (db : Db) (rels : List InnerJoinSqlNode) :
    ∀ ns : List String, (from_join_preds env db ns rels).length = rels.length := by
  induction rels with
  | nil => intro ns; rfl
  | cons r rest ih =>
    intro ns
    simp [from_join_preds, ih]

/-- The predicate build for one joined relation, picked out of the builds of a
FROM clause: the entry `r` after the entries `pre`, its joined relation `n`
after the joined relations `js1`, with the condition fragments `c`. -/
theorem join_site (env : Collab) (db : Db) {rels pre post : List InnerJoinSqlNode}
    {r : InnerJoinSqlNode} {js1 js2 : List String} {n : String}
    {cs1 cs2 : List (List ConditionSqlNode)} {c : List ConditionSqlNode}
    (hrel : rels = pre ++ r :: post) (hj : r.join_relations = js1 ++ n :: js2)
    (hc : r.conditions = cs1 ++ c :: cs2) (hlen : js1.length = cs1.length) :
    Call.filter_create (db.find_table r.base_relation)
        (map_of db (from_names pre ++ r.base_relation :: js1 ++ [n])) c ∈
        from_join_calls db [] rels ∧
      ((from_join_preds env db [] rels)[pre.length]?).bind (fun l => l[js1.length]?) =
        some (env.filter_create db (db.find_table r.base_relation)
          (map_of db (from_names pre ++ r.base_relation :: js1 ++ [n])) c).2 := by
  have hz : r.join_relations.zip r.conditions =
      js1.zip cs1 ++ (n, c) :: js2.zip cs2 := by
    rw [hj, hc, List.zip_append hlen]
    rfl
  have hzf : (js1.zip cs1).map Prod.fst = js1 := List.map_fst_zip _ _ (le_of_eq hlen)
  have hzl : (js1.zip cs1).length = js1.length := by
    simp [List.length_zip, hlen]
  constructor
  · rw [hrel, from_join_calls_append]
    apply List.mem_append_right
    simp only [from_join_calls, List.nil_append]
    apply List.mem_append_left
    rw [hz, join_calls_of_append, hzf]
    apply List.mem_append_right
    simp [join_calls_of]
  · rw [hrel, from_join_preds_append]
    have hl : (from_join_preds env db [] pre).length = pre.length :=
      from_join_preds_length env db pre []
    rw [List.getElem?_append_right (le_of_eq hl), hl, Nat.sub_self]
    simp only [from_join_preds, List.nil_append, List.getElem?_cons_zero, Option.some_bind]
    rw [hz, join_preds_of_append, hzf]
    have hl2 : (join_preds_of env db r.base_relation (from_names pre ++ [r.base_relation])
        (js1.zip cs1)).length = js1.length := by
      rw [join_preds_of_length, hzl]
    rw [List.getElem?_append_right (le_of_eq hl2), hl2, Nat.sub_self]
    simp [join_preds_of]

/-- C16: when FROM resolution succeeds, the predicate builds it made are, in
order, exactly one per joined relation of each FROM entry; the build for the
`j`-th joined relation of an entry has as default table the handle of the
entry's base relation, as table map the map of the relation names resolved so
far (those of the earlier entries, the base of this entry and its joined
relations up to and including the `j`-th, no later one), and as fragments
`conditions[j]`; the `j`-th join step of the chain carries the predicate that
build left behind.  Beyond these, the bind builds at most one more predicate. -/
theorem create_join_predicate_calls (env : Collab) (db : Db) (sql : SelectSqlNode)
    (stmt0 : Option Stmt) (jts : List JoinTables) (st : Locals)
    (hfl : from_loop env db sql.relations [] Locals.init = Run.done jts st) :
    st.calls.filter Call.is_predicate = from_join_calls db [] sql.relations ∧
      jts.map (fun jt => jt.steps.map (fun p => some p.2)) =
        from_join_preds env db [] sql.relations ∧
      (∀ (pre post : List InnerJoinSqlNode) (r : InnerJoinSqlNode) (js1 js2 : List String)
          (n : String) (cs1 cs2 : List (List ConditionSqlNode)) (c : List ConditionSqlNode),
        sql.relations = pre ++ r :: post → r.join_relations = js1 ++ n :: js2 →
        r.conditions = cs1 ++ c :: cs2 → js1.length = cs1.length →
        Call.filter_create (db.find_table r.base_relation)
            (map_of db (from_names pre ++ r.base_relation :: js1 ++ [n])) c ∈ st.calls ∧
          (jts[pre.length]?).bind (fun jt => (jt.steps[js1.length]?).map (fun p => some p.2)) =
            some (env.filter_create db (db.find_table r.base_relation)
              (map_of db (from_names pre ++ r.base_relation :: js1 ++ [n])) c).2) ∧
      (∀ (ns : List String) (x : String),
        TableMap.find (map_of db ns) x = if x ∈ ns then db.find_table x else none) ∧
      (∃ rest, (create env (some db) sql stmt0).calls = st.calls ++ rest ∧
        (rest.filter Call.is_predicate).length ≤ 1) ∧
      ((create env (some db) sql stmt0).exit = Exit.returned RC.SUCCESS →
        ∃ s, (create env (some db) sql stmt0).stmt = some s ∧ s.join_tables_ = jts) := by
  obtain ⟨_, _, h3, h4⟩ := from_loop_init_state hfl
  refine ⟨h3, h4, ?_, map_of_find db, ?_, ?_⟩
  · intro pre post r js1 js2 n cs1 cs2 c hrel hj hc hlen
    obtain ⟨g1, g2⟩ := join_site env db hrel hj hc hlen
    constructor
    · rw [← h3] at g1
      exact (List.mem_filter.1 g1).1
    · rw [← g2, ← h4, List.getElem?_map]
      cases jts[pre.length]? with
      | none => rfl
      | some jt => simp [List.getElem?_map]
  · obtain ⟨new, hn1, hn2⟩ := project_loop_calls env db st.tables st.table_map
      (st.tables.length == 1) sql.project_exprs.reverse [] st.calls
    cases hpl : project_loop env db st.tables st.table_map (st.tables.length == 1)
        sql.project_exprs.reverse [] st.calls with
    | left x calls =>
      rw [hpl] at hn1
      simp only [ProjRun.calls] at hn1
      rw [create_stages_left stmt0 hfl hpl]
      refine ⟨new, hn1, ?_⟩
      rw [filter_predicate_projection hn2]
      simp
    | done ps calls =>
      rw [hpl] at hn1
      simp only [ProjRun.calls] at hn1
      rw [create_stages_done stmt0 hfl hpl]
      refine ⟨new ++ [Call.filter_create (default_table_of st.tables) st.table_map
        sql.conditions], ?_, ?_⟩
      · split <;> simp [hn1]
      · rw [List.filter_append, filter_predicate_projection hn2]
        simp [List.filter_cons, Call.is_predicate]
  · intro hok
    obtain ⟨jts2, st2, ps, calls, hfl2, _, _, hc⟩ := create_success hok
    rw [hfl] at hfl2
    simp only [Run.done.injEq] at hfl2
    refine ⟨_, by rw [hc], ?_⟩
    exact hfl2.1.symm

/-- C16, at `FROM T1 INNER JOIN T2 ON c1 INNER JOIN T3 ON c2, T2`: two
predicate builds, both with default table `T1`, the first over the map of
`T1`, `T2` with `c1`, the second over the map of `T1`, `T2`, `T3` with `c2`;
the chain of `T1` carries their two predicates and the chain of `T2` none. -/
theorem create_join_predicate_calls_witness :
    from_join_calls sample_db [] sample_three_joins.relations =
        [Call.filter_create (some sample_t1) [("T1", sample_t1), ("T2", sample_t2)] [⟨1⟩],
          Call.filter_create (some sample_t1)
            [("T1", sample_t1), ("T2", sample_t2), ("T3", sample_t3)] [⟨2⟩]] ∧
      from_join_preds sample_env sample_db [] sample_three_joins.relations =
        [[some ⟨1⟩, some ⟨1⟩], []] ∧
      ∃ jts st, from_loop sample_env sample_db sample_three_joins.relations [] Locals.init =
          Run.done jts st ∧
        st.calls.filter Call.is_predicate =
          from_join_calls sample_db [] sample_three_joins.relations ∧
        jts.map (fun jt => jt.steps.map (fun p => some p.2)) =
          from_join_preds sample_env sample_db [] sample_three_joins.relations :=
  ⟨by decide, by decide, _, _, rfl,
    (create_join_predicate_calls sample_env sample_db sample_three_joins none _ _ rfl).1,
    (create_join_predicate_calls sample_env sample_db sample_three_joins none _ _ rfl).2.1⟩

/-- C17: in a bind that gets past FROM resolution and projection resolution,
the WHERE predicate is built once, as the last call of the bind and so after
every join predicate and every projection check or expansion: every earlier
predicate build is that of a join.  It is built from the top-level condition
fragments over the table map of all FROM names, with the single resolved
table as default table when exactly one FROM table was resolved and with the
null pointer otherwise.  `create` returns the code of that build, and on
success the filter of the statement is the predicate the build left behind. -/
theorem create_where_predicate (env : Collab) (db : Db) (sql : SelectSqlNode)
    (stmt0 : Option Stmt) (jts : List JoinTables) (st : Locals) (ps : List Expression)
    (calls : List Call)
    (hfl : from_loop env db sql.relations [] Locals.init = Run.done jts st)
    (hpl : project_loop env db st.tables st.table_map (st.tables.length == 1)
      sql.project_exprs.reverse [] st.calls = ProjRun.done ps calls) :
    (create env (some db) sql stmt0).calls = calls ++
        [Call.filter_create
          (if (resolved_tables db sql.relations).length = 1
            then (resolved_tables db sql.relations)[0]? else none)
          (map_of db (from_names sql.relations)) sql.conditions] ∧
      calls.filter Call.is_predicate = from_join_calls db [] sql.relations ∧
      (create env (some db) sql stmt0).exit = Exit.returned
        (env.filter_create db
          (if (resolved_tables db sql.relations).length = 1
            then (resolved_tables db sql.relations)[0]? else none)
          (map_of db (from_names sql.relations)) sql.conditions).1 ∧
      ((create env (some db) sql stmt0).exit = Exit.returned RC.SUCCESS →
        ∃ s, (create env (some db) sql stmt0).stmt = some s ∧
          s.filter_stmt_ = (env.filter_create db
            (if (resolved_tables db sql.relations).length = 1
              then (resolved_tables db sql.relations)[0]? else none)
            (map_of db (from_names sql.relations)) sql.conditions).2) := by
  obtain ⟨h1, h2, h3, _⟩ := from_loop_init_state hfl
  obtain ⟨new, hn1, hn2⟩ := project_loop_calls env db st.tables st.table_map
    (st.tables.length == 1) sql.project_exprs.reverse [] st.calls
  rw [hpl] at hn1
  simp only [ProjRun.calls] at hn1
  have hcr := create_stages_done stmt0 hfl hpl
  simp only [default_table_of, h1, h2] at hcr
  have hpre : calls.filter Call.is_predicate = from_join_calls db [] sql.relations := by
    rw [hn1, List.filter_append, filter_predicate_projection hn2, h3]
    simp
  generalize (if (resolved_tables db sql.relations).length = 1
    then (resolved_tables db sql.relations)[0]? else none) = dflt at hcr ⊢
  by_cases hs : (env.filter_create db dflt (map_of db (from_names sql.relations))
      sql.conditions).1 = RC.SUCCESS
  · rw [if_neg (not_not.2 hs)] at hcr
    rw [hcr]
    exact ⟨rfl, hpre, by rw [hs], fun _ => ⟨_, rfl, rfl⟩⟩
  · rw [if_pos hs] at hcr
    rw [hcr]
    refine ⟨rfl, hpre, rfl, fun hok => ?_⟩
    simp only [Exit.returned.injEq] at hok
    exact absurd hok hs

/-- C17, at `SELECT * FROM T1 WHERE c` (one table, default `T1`) and at
`SELECT * FROM T1 INNER JOIN T2 ON c WHERE c` (two tables, no default). -/
theorem create_where_predicate_witness :
    ((create sample_env (some sample_db) sample_where none).calls =
        [Call.find_table "T1", Call.wildcard_fields sample_t1] ++
          [Call.filter_create
            (if (resolved_tables sample_db sample_where.relations).length = 1
              then (resolved_tables sample_db sample_where.relations)[0]? else none)
            (map_of sample_db (from_names sample_where.relations)) sample_where.conditions] ∧
      [Call.find_table "T1", Call.wildcard_fields sample_t1].filter Call.is_predicate =
        from_join_calls sample_db [] sample_where.relations ∧
      (create sample_env (some sample_db) sample_where none).exit = Exit.returned
        (sample_env.filter_create sample_db
          (if (resolved_tables sample_db sample_where.relations).length = 1
            then (resolved_tables sample_db sample_where.relations)[0]? else none)
          (map_of sample_db (from_names sample_where.relations)) sample_where.conditions).1 ∧
      ((create sample_env (some sample_db) sample_where none).exit =
          Exit.returned RC.SUCCESS →
        ∃ s, (create sample_env (some sample_db) sample_where none).stmt = some s ∧
          s.filter_stmt_ = (sample_env.filter_create sample_db
            (if (resolved_tables sample_db sample_where.relations).length = 1
              then (resolved_tables sample_db sample_where.relations)[0]? else none)
            (map_of sample_db (from_names sample_where.relations))
            sample_where.conditions).2)) ∧
    (create sample_env (some sample_db) sample_where none).calls =
      [Call.find_table "T1", Call.wildcard_fields sample_t1,
        Call.filter_create (some sample_t1) [("T1", sample_t1)] [⟨3⟩]] ∧
    (create sample_env (some sample_db) sample_join_where none).calls =
      [Call.find_table "T1", Call.find_table "T2",
        Call.filter_create (some sample_t1) [("T1", sample_t1), ("T2", sample_t2)] [⟨1⟩],
        Call.wildcard_fields sample_t1, Call.wildcard_fields sample_t2,
        Call.filter_create none [("T1", sample_t1), ("T2", sample_t2)] [⟨3⟩]] :=
  ⟨create_where_predicate sample_env sample_db sample_where none
      [⟨some sample_t1, []⟩] ⟨[sample_t1], [("T1", sample_t1)], [Call.find_table "T1"]⟩
      [Expression.field ⟨"T1", "a", "a", some sample_t1, some ⟨"a", true⟩⟩,
        Expression.field ⟨"T1", "b", "b", some sample_t1, some ⟨"b", true⟩⟩]
      [Call.find_table "T1", Call.wildcard_fields sample_t1] (by decide) (by decide),
    by decide, by decide⟩

theorem project_loop_append (env : Collab) (db : Db) (tables : List Table) (tm : TableMap)
    (s : Bool) (l1 l2 : List Expression) :
    ∀ (ps : List Expression) (calls : List Call),
      project_loop env db tables tm s (l1 ++ l2) ps calls =
        match project_loop env db tables tm s l1 ps calls with
        | ProjRun.done ps' calls' => project_loop env db tables tm s l2 ps' calls'
        | ProjRun.left x calls' => ProjRun.left x calls' := by
  induction l1 with
  | nil => intro ps calls; simp [project_loop]
  | cons e rest ih =>
    intro ps calls
    simp only [List.cons_append, project_loop]
    split
    · exact ih _ _
    · rfl

theorem project_body_keep {env : Collab} {db : Db} (tables : List Table) (tm : TableMap)
    (s : Bool) {e : Expression} (ps : List Expression) (calls : List Call)
    (hnw : e.is_wildcard = false)
    (hnb : ∀ fe, e = Expression.field fe → env.is_blank fe.field_name = false) :
    project_body env db tables tm s e ps calls =
      if env.check_field e tm tables db ≠ RC.SUCCESS then
        ProjRun.left (Exit.returned (env.check_field e tm tables db))
          (calls ++ [Call.check_field e])
      else ProjRun.done (ps ++ [e]) (calls ++ [Call.check_field e]) := by
  cases e with
  | field fe =>
    have hf : ¬ fe.field_name = "*" := by simpa [Expression.is_wildcard] using hnw
    have hb : env.is_blank fe.field_name = false := hnb fe rfl
    simp [project_body, hf, hb, check_and_keep]
  | star tag => simp [project_body, check_and_keep]
  | other tag => simp [project_body, check_and_keep]

theorem reverse_split {α : Type} (pre post : List α) (e : α) :
    (pre ++ e :: post).reverse = post.reverse ++ e :: pre.reverse := by
  simp

/-- The projection loop from the point where, having gone through the raw
expressions after `e`, it is about to process `e`. -/
theorem create_at_expression {env : Collab} {db : Db} {sql : SelectSqlNode}
    {pre post : List Expression} {e : Expression} {st : Locals}
    {ps1 : List Expression} {calls1 : List Call}
    (hsplit : sql.project_exprs = pre ++ e :: post)
    (hpost : project_loop env db st.tables st.table_map (st.tables.length == 1)
      post.reverse [] st.calls = ProjRun.done ps1 calls1) :
    project_loop env db st.tables st.table_map (st.tables.length == 1)
        sql.project_exprs.reverse [] st.calls =
      match project_body env db st.tables st.table_map (st.tables.length == 1) e ps1 calls1 with
      | ProjRun.done ps2 calls2 =>
        project_loop env db st.tables st.table_map (st.tables.length == 1) pre.reverse ps2 calls2
      | ProjRun.left x calls2 => ProjRun.left x calls2 := by
  rw [hsplit, reverse_split, project_loop_append, hpost]
  simp only [project_loop]

/-- C18: when the projection loop of a bind comes to a raw expression `e` that
is not a wildcard (a field reference whose field part is neither `*` nor
blank, or a node of any other kind), FROM resolution and the raw expressions
after `e` having gone through, `create` calls `check_field` on `e` with the
table map, the resolved table list and the db handle.  If the check fails
with a code, `create` returns exactly that code, right after the check and
without a statement; if it succeeds and the bind succeeds, `e` itself is the
one entry `e` contributes, between the entries of the expressions after it
and those of the expressions before it. -/
theorem create_checks_plain_expression (env : Collab) (db : Db) (sql : SelectSqlNode)
    (stmt0 : Option Stmt) (pre post : List Expression) (e : Expression)
    (jts : List JoinTables) (st : Locals) (ps1 : List Expression) (calls1 : List Call)
    (hsplit : sql.project_exprs = pre ++ e :: post)
    (hfl : from_loop env db sql.relations [] Locals.init = Run.done jts st)
    (hpost : project_loop env db st.tables st.table_map (st.tables.length == 1)
      post.reverse [] st.calls = ProjRun.done ps1 calls1)
    (hnw : e.is_wildcard = false)
    (hnb : ∀ fe, e = Expression.field fe → env.is_blank fe.field_name = false) :
    (∃ rest, (create env (some db) sql stmt0).calls = calls1 ++ Call.check_field e :: rest) ∧
      (env.check_field e (map_of db (from_names sql.relations))
          (resolved_tables db sql.relations) db ≠ RC.SUCCESS →
        (create env (some db) sql stmt0).exit = Exit.returned
          (env.check_field e (map_of db (from_names sql.relations))
            (resolved_tables db sql.relations) db) ∧
        (create env (some db) sql stmt0).stmt = stmt0 ∧
        (create env (some db) sql stmt0).calls = calls1 ++ [Call.check_field e]) ∧
      (env.check_field e (map_of db (from_names sql.relations))
          (resolved_tables db sql.relations) db = RC.SUCCESS →
        (create env (some db) sql stmt0).exit = Exit.returned RC.SUCCESS →
        ∃ s, (create env (some db) sql stmt0).stmt = some s ∧
          s.projects_ = ps1 ++ e :: pre.reverse.flatMap (resolved_entries db sql.relations)) := by
  obtain ⟨ht, hm, _, _⟩ := from_loop_init_state hfl
  have hat := create_at_expression hsplit hpost
  rw [project_body_keep st.tables st.table_map _ ps1 calls1 hnw hnb] at hat
  rw [← ht, ← hm]
  by_cases hrc : env.check_field e st.table_map st.tables db = RC.SUCCESS
  · rw [if_neg (not_not.2 hrc)] at hat
    simp only at hat
    refine ⟨?_, fun hne => absurd hrc hne, ?_⟩
    · obtain ⟨new, hn1, _⟩ := project_loop_calls env db st.tables st.table_map
        (st.tables.length == 1) pre.reverse (ps1 ++ [e]) (calls1 ++ [Call.check_field e])
      cases hrest : project_loop env db st.tables st.table_map (st.tables.length == 1)
          pre.reverse (ps1 ++ [e]) (calls1 ++ [Call.check_field e]) with
      | left x calls2 =>
        rw [hrest] at hat hn1
        simp only [ProjRun.calls] at hn1
        rw [create_stages_left stmt0 hfl hat]
        exact ⟨new, by rw [hn1]; simp⟩
      | done ps2 calls2 =>
        rw [hrest] at hat hn1
        simp only [ProjRun.calls] at hn1
        rw [create_stages_done stmt0 hfl hat]
        refine ⟨new ++ [Call.filter_create (default_table_of st.tables) st.table_map
          sql.conditions], ?_⟩
        split <;> simp [hn1]
    · intro _ hok
      obtain ⟨jts2, st2, ps, calls, hfl2, hpl2, _, hc⟩ := create_success hok
      rw [hfl] at hfl2
      simp only [Run.done.injEq] at hfl2
      obtain ⟨_, hst⟩ := hfl2
      subst hst
      rw [hat] at hpl2
      have hp := project_loop_done _ _ _ _ _ hpl2
      refine ⟨_, by rw [hc], ?_⟩
      obtain ⟨ha, _⟩ := from_loop_done _ _ _ _ _ _ (agrees_init db) hfl
      simp only [List.nil_append] at ha
      simp only [hp, List.append_assoc, List.singleton_append]
      rw [agrees_find ha, agrees_tables ha]
      rfl
  · rw [if_pos hrc] at hat
    have hcr := create_stages_left stmt0 hfl hat
    rw [hcr]
    exact ⟨⟨[], rfl⟩, fun _ => ⟨rfl, rfl, rfl⟩, fun hs => absurd hs hrc⟩

/-- C18, at `SELECT e0, e3, * FROM T1` and its middle expression `e3`: the
check passes and the projection list is `a`, `b`, `e3`, `e0`; and at
`SELECT e1, e0, e2, * FROM T1` and `e2` with a check that rejects `e2` with
`OTHER 9`: the bind returns `OTHER 9`. -/
theorem create_checks_plain_expression_witness :
    (∃ s, (create sample_env (some sample_db) sample_three_exprs none).stmt = some s ∧
        s.projects_ =
          [Expression.field ⟨"T1", "a", "a", some sample_t1, some ⟨"a", true⟩⟩,
            Expression.field ⟨"T1", "b", "b", some sample_t1, some ⟨"b", true⟩⟩] ++
          Expression.other 3 :: [Expression.other 0].reverse.flatMap
            (resolved_entries sample_db sample_three_exprs.relations)) ∧
      (create picky_env (some sample_db) sample_two_failing none).exit =
        Exit.returned (picky_env.check_field (Expression.other 2)
          (map_of sample_db (from_names sample_two_failing.relations))
          (resolved_tables sample_db sample_two_failing.relations) sample_db) ∧
      picky_env.check_field (Expression.other 2)
        (map_of sample_db (from_names sample_two_failing.relations))
        (resolved_tables sample_db sample_two_failing.relations) sample_db = RC.OTHER 9 :=
  ⟨(create_checks_plain_expression sample_env sample_db sample_three_exprs none
      [Expression.other 0] [star_expr] (Expression.other 3)
      [⟨some sample_t1, []⟩] ⟨[sample_t1], [("T1", sample_t1)], [Call.find_table "T1"]⟩
      [Expression.field ⟨"T1", "a", "a", some sample_t1, some ⟨"a", true⟩⟩,
        Expression.field ⟨"T1", "b", "b", some sample_t1, some ⟨"b", true⟩⟩]
      [Call.find_table "T1", Call.wildcard_fields sample_t1]
      rfl (by decide) (by decide) (by decide)
      (fun _ h => Expression.noConfusion h)).2.2 (by decide) (by decide),
    ((create_checks_plain_expression picky_env sample_db sample_two_failing none
      [Expression.other 1, Expression.other 0] [star_expr] (Expression.other 2)
      [⟨some sample_t1, []⟩] ⟨[sample_t1], [("T1", sample_t1)], [Call.find_table "T1"]⟩
      [Expression.field ⟨"T1", "a", "a", some sample_t1, some ⟨"a", true⟩⟩,
        Expression.field ⟨"T1", "b", "b", some sample_t1, some ⟨"b", true⟩⟩]
      [Call.find_table "T1", Call.wildcard_fields sample_t1]
      rfl (by decide) (by decide) (by decide)
      (fun _ h => Expression.noConfusion h)).2.1 (by decide)).1,
    by decide⟩

theorem from_names_length (rels : List InnerJoinSqlNode) :
    (from_names rels).length = (rels.map (fun r => 1 + r.join_relations.length)).sum := by
  induction rels with
  | nil => rfl
  | cons r rest ih =>
    simp only [from_names, List.flatMap_cons, List.length_append, List.length_cons,
      List.map_cons, List.sum_cons] at ih ⊢
    rw [ih]
    omega

theorem from_names_single (rels : List InnerJoinSqlNode) :
    (from_names rels).length = 1 ↔ ∃ r, rels = [r] ∧ r.join_relations = [] := by
  rw [from_names_length]
  cases rels with
  | nil => simp
  | cons r rest =>
    cases rest with
    | nil =>
      simp only [List.map_cons, List.map_nil, List.sum_cons, List.sum_nil, Nat.add_zero]
      constructor
      · intro h
        exact ⟨r, rfl, List.length_eq_zero.1 (by omega)⟩
      · rintro ⟨r2, h1, h2⟩
        simp only [List.cons.injEq, and_true] at h1
        subst h1
        simp [h2]
    | cons r2 rest2 =>
      simp only [List.map_cons, List.sum_cons]
      constructor
      · intro h
        omega
      · rintro ⟨r3, h1, _⟩
        simp at h1

/-- C19: after FROM resolution succeeds, the resolved table list consists of
the catalog handles of the flattened FROM clause in source order (for each
entry its base relation, then its joined relations), one element per
occurrence, so its length is the sum over the FROM entries of one plus the
number of joined relations; hence exactly one table is resolved if and only if
the FROM clause has exactly one entry and that entry has no joins.  A relation
named twice, as in `FROM T, T`, makes `*` expand to the fields of `T` twice,
with qualified display names. -/
theorem create_resolved_table_list (env : Collab) (db : Db) (sql : SelectSqlNode)
    (jts : List JoinTables) (st : Locals)
    (hfl : from_loop env db sql.relations [] Locals.init = Run.done jts st) :
    st.tables.map some = (from_names sql.relations).map db.find_table ∧
      st.tables = resolved_tables db sql.relations ∧
      st.tables.length = (sql.relations.map (fun r => 1 + r.join_relations.length)).sum ∧
      (st.tables.length = 1 ↔ ∃ r, sql.relations = [r] ∧ r.join_relations = []) ∧
      ∀ (stmt0 : Option Stmt) (T : String) (t : Table) (fe : FieldExpr),
        sql.relations = [⟨T, [], []⟩, ⟨T, [], []⟩] → db.find_table T = some t →
        sql.project_exprs = [Expression.field fe] → fe.table_name = "*" →
        fe.field_name = "*" →
        (create env (some db) sql stmt0).exit = Exit.returned RC.SUCCESS →
        ∃ s, (create env (some db) sql stmt0).stmt = some s ∧
          s.projects_ = wildcard_expansion t false ++ wildcard_expansion t false := by
  obtain ⟨ha, _⟩ := from_loop_done _ _ _ _ _ _ (agrees_init db) hfl
  simp only [List.nil_append] at ha
  have hlen : st.tables.length = (from_names sql.relations).length := by
    have := congrArg List.length ha.1
    simpa using this
  refine ⟨ha.1, agrees_tables ha, ?_, ?_, ?_⟩
  · rw [hlen, from_names_length]
  · rw [hlen]
    exact from_names_single sql.relations
  · intro stmt0 T t fe hrel hfind hp htn hfn hok
    obtain ⟨s, hs, hpr, _⟩ := create_success_projects hok
    refine ⟨s, hs, ?_⟩
    rw [hpr, hp]
    simp [resolved_entries, entries_of, htn, hfn, resolved_tables, from_names, hrel, hfind]

/-- C19, at `SELECT * FROM T1, T1`: two resolved tables, and the fields of
`T1` twice, named `T1.a`, `T1.b`. -/
theorem create_resolved_table_list_witness :
    (∃ jts st, from_loop sample_env sample_db sample_star_twice.relations [] Locals.init =
        Run.done jts st ∧
      st.tables.map some = (from_names sample_star_twice.relations).map sample_db.find_table ∧
      st.tables = [sample_t1, sample_t1]) ∧
    (create sample_env (some sample_db) sample_star_twice none).stmt.map Stmt.projects_ =
      some [Expression.field ⟨"T1", "a", "T1.a", some sample_t1, some ⟨"a", true⟩⟩,
            Expression.field ⟨"T1", "b", "T1.b", some sample_t1, some ⟨"b", true⟩⟩,
            Expression.field ⟨"T1", "a", "T1.a", some sample_t1, some ⟨"a", true⟩⟩,
            Expression.field ⟨"T1", "b", "T1.b", some sample_t1, some ⟨"b", true⟩⟩] ∧
    ∃ s, (create sample_env (some sample_db) sample_star_twice none).stmt = some s ∧
      s.projects_ = wildcard_expansion sample_t1 false ++ wildcard_expansion sample_t1 false :=
  ⟨⟨_, _, rfl,
      (create_resolved_table_list sample_env sample_db sample_star_twice _ _ rfl).1, rfl⟩,
    by decide,
    (create_resolved_table_list sample_env sample_db sample_star_twice _ _ rfl).2.2.2.2
      none "T1" sample_t1 ⟨"*", "*", "", none, none⟩ rfl (by decide) rfl rfl rfl (by decide)⟩

theorem project_body_left_calls {env : Collab} {db : Db} {tables : List Table} {tm : TableMap}
    {s : Bool} {e : Expression} {ps : List Expression} {calls calls' : List Call} {x : Exit}
    (h : project_body env db tables tm s e ps calls = ProjRun.left x calls') :
    calls' = calls ∨ calls' = calls ++ [Call.check_field e] := by
  cases e with
  | field fe =>
    simp only [project_body] at h
    split at h
    · simp only [ProjRun.left.injEq] at h
      exact Or.inl h.2.symm
    · split at h
      · exact ProjRun.noConfusion h
      · split at h
        · split at h
          · simp only [ProjRun.left.injEq] at h
            exact Or.inl h.2.symm
          · split at h
            · simp only [ProjRun.left.injEq] at h
              exact Or.inl h.2.symm
            · exact ProjRun.noConfusion h
        · exact Or.inr (check_and_keep_left h).2.2
  | star tag =>
    simp only [project_body] at h
    exact Or.inr (check_and_keep_left h).2.2
  | other tag =>
    simp only [project_body] at h
    exact Or.inr (check_and_keep_left h).2.2

/-- C20: when FROM resolution succeeds and the projection loop, having gone
through the raw expressions after `e` without failure, fails at `e`, `create`
ends with the failure of `e` and without a statement, and the call log ends
with the calls made for the expressions after `e`, followed at most by the
check of `e` itself: the raw expressions before `e` are neither checked nor
expanded, and whatever they are the bind ends the same way.  So of several
failing expressions the one with the greatest source index decides. -/
theorem create_projection_failure (env : Collab) (db : Db) (sql : SelectSqlNode)
    (stmt0 : Option Stmt) (pre post : List Expression) (e : Expression)
    (jts : List JoinTables) (st : Locals) (ps1 : List Expression) (calls1 calls2 : List Call)
    (x : Exit)
    (hsplit : sql.project_exprs = pre ++ e :: post)
    (hfl : from_loop env db sql.relations [] Locals.init = Run.done jts st)
    (hpost : project_loop env db st.tables st.table_map (st.tables.length == 1)
      post.reverse [] st.calls = ProjRun.done ps1 calls1)
    (hfail : project_body env db st.tables st.table_map (st.tables.length == 1) e ps1 calls1 =
      ProjRun.left x calls2) :
    (create env (some db) sql stmt0).exit = x ∧ x ≠ Exit.returned RC.SUCCESS ∧
      (create env (some db) sql stmt0).stmt = stmt0 ∧
      (create env (some db) sql stmt0).calls = calls2 ∧
      (calls2 = calls1 ∨ calls2 = calls1 ++ [Call.check_field e]) ∧
      ∀ pre2 : List Expression,
        (create env (some db) { sql with project_exprs := pre2 ++ e :: post } stmt0).exit = x ∧
        (create env (some db) { sql with project_exprs := pre2 ++ e :: post } stmt0).calls =
          calls2 := by
  have hat := create_at_expression hsplit hpost
  rw [hfail] at hat
  simp only at hat
  rw [create_stages_left stmt0 hfl hat]
  refine ⟨rfl, project_body_left hfail, rfl, rfl, project_body_left_calls hfail, ?_⟩
  intro pre2
  have hfl2 : from_loop env db
      ({ sql with project_exprs := pre2 ++ e :: post } : SelectSqlNode).relations []
      Locals.init = Run.done jts st := hfl
  have hat2 := create_at_expression
    (show ({ sql with project_exprs := pre2 ++ e :: post } : SelectSqlNode).project_exprs =
      pre2 ++ e :: post from rfl) hpost
  rw [hfail] at hat2
  simp only at hat2
  rw [create_stages_left stmt0 hfl2 hat2]
  exact ⟨rfl, rfl⟩

/-- C20, at `SELECT e1, e0, e2, * FROM T1` with a check that rejects `e1` with
`SCHEMA_FIELD_MISSING` and `e2` with `OTHER 9`: the bind returns `OTHER 9`,
the code of `e2`, and neither `e0` nor `e1` is checked. -/
theorem create_projection_failure_witness :
    picky_env.check_field (Expression.other 1) [("T1", sample_t1)] [sample_t1] sample_db =
        RC.SCHEMA_FIELD_MISSING ∧
      (create picky_env (some sample_db) sample_two_failing none).exit =
        Exit.returned (RC.OTHER 9) ∧
      (create picky_env (some sample_db) sample_two_failing none).stmt = none ∧
      (create picky_env (some sample_db) sample_two_failing none).calls =
        [Call.find_table "T1", Call.wildcard_fields sample_t1,
          Call.check_field (Expression.other 2)] :=
  ⟨by decide,
    (create_projection_failure picky_env sample_db sample_two_failing none
      [Expression.other 1, Expression.other 0] [star_expr] (Expression.other 2)
      [⟨some sample_t1, []⟩] ⟨[sample_t1], [("T1", sample_t1)], [Call.find_table "T1"]⟩
      [Expression.field ⟨"T1", "a", "a", some sample_t1, some ⟨"a", true⟩⟩,
        Expression.field ⟨"T1", "b", "b", some sample_t1, some ⟨"b", true⟩⟩]
      [Call.find_table "T1", Call.wildcard_fields sample_t1]
      [Call.find_table "T1", Call.wildcard_fields sample_t1,
        Call.check_field (Expression.other 2)]
      (Exit.returned (RC.OTHER 9)) rfl (by decide) (by decide) (by decide)).1,
    (create_projection_failure picky_env sample_db sample_two_failing none
      [Expression.other 1, Expression.other 0] [star_expr] (Expression.other 2)
      [⟨some sample_t1, []⟩] ⟨[sample_t1], [("T1", sample_t1)], [Call.find_table "T1"]⟩
      [Expression.field ⟨"T1", "a", "a", some sample_t1, some ⟨"a", true⟩⟩,
        Expression.field ⟨"T1", "b", "b", some sample_t1, some ⟨"b", true⟩⟩]
      [Call.find_table "T1", Call.wildcard_fields sample_t1]
      [Call.find_table "T1", Call.wildcard_fields sample_t1,
        Call.check_field (Expression.other 2)]
      (Exit.returned (RC.OTHER 9)) rfl (by decide) (by decide) (by decide)).2.2.1,
    (create_projection_failure picky_env sample_db sample_two_failing none
      [Expression.other 1, Expression.other 0] [star_expr] (Expression.other 2)
      [⟨some sample_t1, []⟩] ⟨[sample_t1], [("T1", sample_t1)], [Call.find_table "T1"]⟩
      [Expression.field ⟨"T1", "a", "a", some sample_t1, some ⟨"a", true⟩⟩,
        Expression.field ⟨"T1", "b", "b", some sample_t1, some ⟨"b", true⟩⟩]
      [Call.find_table "T1", Call.wildcard_fields sample_t1]
      [Call.find_table "T1", Call.wildcard_fields sample_t1,
        Call.check_field (Expression.other 2)]
      (Exit.returned (RC.OTHER 9)) rfl (by decide) (by decide) (by decide)).2.2.2.1⟩

end SelectStmt
